import Mathlib

/-!
Verification development for the Beirut POS order/inventory engine
(`beirut_pos/services/orders.py` and `beirut_pos/core/db.py`).

The engine is shallowly embedded: the durable SQLite tables become lists of
records inside a `DB` structure, the in-memory `OrderManager` caches become
association lists keyed by table code, and every mutating operation is a pure
function from engine state to (result, engine state).  Quantities and stock
levels (`REAL` columns / Python floats) are modelled as exact rationals,
money (`*_cents` columns) as integers, timestamps as natural numbers (epoch
seconds).

Transactions (`db_transaction` in `core/db.py`) commit on success and roll
back the durable store on any exception; commit itself may fail (a
persistence failure).  This is modelled with an oracle stream of booleans in
the state: each commit consumes the head (an empty stream means commit always
succeeds); a `false` entry makes the commit fail, reverting the durable `DB`
to its pre-transaction snapshot while Python-side (in-memory) mutations
already performed inside the `with`-block survive, and the exception
propagates.
-/

set_option maxRecDepth 2000

namespace Beirut

/-- Floor of a rational, computed with flooring integer division (so that
the kernel can evaluate it). -/
def ratFloor (q : ℚ) : ℤ :=
  Int.fdiv q.num (q.den : ℤ)

/-- Ceiling of a rational. -/
def ratCeil (q : ℚ) : ℤ :=
  -ratFloor (-q)

/-- Python `int(x)` truncation of a rational toward zero
(used by `OrderItem.total_cents = int(unit_price_cents * qty)`). -/
def truncQ (q : ℚ) : ℤ :=
  if q < 0 then ratCeil q else ratFloor q

/-- Python 3 `round(x)` on the billing amount: round half to even. -/
def pyRound (q : ℚ) : ℤ :=
  let f : ℤ := ratFloor q
  let r : ℚ := q - (f : ℚ)
  if r < 1/2 then f
  else if 1/2 < r then f + 1
  else if f % 2 = 0 then f else f + 1

/-- The float tolerance `1e-6` used by `update_item`. -/
def qEps : ℚ := 1/1000000

/-- A row of the `products` table (columns used by the engine; `category` is
the joined category name, list position stands for the SQL ordering). -/
structure Product where
  name : String
  category : String
  price_cents : ℤ
  track_stock : ℤ
  stock_qty : Option ℚ
  min_stock : Option ℚ
deriving DecidableEq

/-- A row of the `orders` table. -/
structure DBOrder where
  id : ℕ
  table_code : String
  opened_at : ℕ
  status : String
  opened_by : String
  closed_at : Option ℕ
  closed_by : Option String
deriving DecidableEq

/-- A row of the `order_items` table. -/
structure DBItem where
  id : ℕ
  order_id : ℕ
  product_name : String
  price_cents : ℤ
  qty : ℚ
  note : String
deriving DecidableEq

/-- A row of the `payments` table. -/
structure DBPayment where
  id : ℕ
  order_id : ℕ
  method : String
  amount_cents : ℤ
  paid_at : ℕ
  cashier : String
deriving DecidableEq

/-- A row of the `ps_sessions` table (keyed by table code). -/
structure DBSession where
  mode : String
  started_at : ℕ
  total_seconds : ℕ
deriving DecidableEq

/-- The durable store.  `next_*_id` model the SQLite rowid autoincrement
(`cur.lastrowid`).  `restock_log` is a ghost field recording every committed
`inc_stock` call `(label, qty)`; it influences no behaviour and exists only to
state the stock upper-bound property. -/
structure DB where
  products : List Product
  orders : List DBOrder
  order_items : List DBItem
  payments : List DBPayment
  ps_sessions : List (String × DBSession)
  next_order_id : ℕ
  next_item_id : ℕ
  next_payment_id : ℕ
  restock_log : List (String × ℚ)
deriving DecidableEq

/-- In-memory `OrderItem` dataclass. -/
structure OrderItem where
  product : String
  unit_price_cents : ℤ
  qty : ℚ
  note : String
  row_id : Option ℕ
deriving DecidableEq

/-- `OrderItem.total_cents = int(self.unit_price_cents * self.qty)`. -/
def OrderItem.total_cents (i : OrderItem) : ℤ :=
  truncQ ((i.unit_price_cents : ℚ) * i.qty)

/-- In-memory `Order` dataclass. -/
structure Order where
  id : ℕ
  table_code : String
  items : List OrderItem
  status : String
  discount_cents : ℤ
  opened_by : String
deriving DecidableEq

/-- `Order.subtotal_cents`. -/
def Order.subtotal_cents (o : Order) : ℤ :=
  (o.items.map OrderItem.total_cents).sum

/-- `Order.total_cents = max(subtotal - discount, 0)`. -/
def Order.total_cents (o : Order) : ℤ :=
  max (o.subtotal_cents - o.discount_cents) 0

/-- In-memory `PSSession` dataclass. -/
structure PSSession where
  mode : String
  started_at : ℕ
  total_seconds : ℕ
deriving DecidableEq

/-- Events emitted on the bus (`bus.emit`), recorded in emission order. -/
inductive Event where
  | table_state_changed (table state : String)
  | table_total_changed (table : String) (total : ℤ)
  | ps_state_changed (table : String) (active : Bool)
  | catalog_changed
  | inventory_low (product : String) (before after threshold : ℚ)
  | inventory_recovered (product : String) (before after threshold : ℚ)
deriving DecidableEq

/-- Errors an engine operation can raise: `StockError`, or a persistence
failure surfaced by a failed commit. -/
inductive Err where
  | stockErr
  | dbFail
deriving DecidableEq

/-- Equality of `Except` results is decidable (needed to evaluate concrete
runs). -/
instance {e a : Type} [DecidableEq e] [DecidableEq a] :
    DecidableEq (Except e a) := fun x y =>
  match x, y with
  | .ok u, .ok v =>
      match decEq u v with
      | isTrue h => isTrue (by rw [h])
      | isFalse h => isFalse (fun hh => h (Except.ok.inj hh))
  | .error u, .error v =>
      match decEq u v with
      | isTrue h => isTrue (by rw [h])
      | isFalse h => isFalse (fun hh => h (Except.error.inj hh))
  | .ok _, .error _ => isFalse (fun hh => Except.noConfusion hh)
  | .error _, .ok _ => isFalse (fun hh => Except.noConfusion hh)

/-- Full engine state: durable store + `OrderManager` in-memory caches
(`self.orders`, `self.ps_sessions`), the emitted-event trace, and the
commit-failure oracle. -/
structure EngState where
  db : DB
  orders : List (String × Order)
  ps_sessions : List (String × PSSession)
  events : List Event
  tx_oracle : List Bool
deriving DecidableEq

/-! ### Association-list maps (Python `dict` keyed by table code) -/

/-- `d.get(k)`. -/
def lookupA {α : Type} (m : List (String × α)) (k : String) : Option α :=
  (m.find? (fun p => decide (p.1 = k))).map (·.2)

/-- `d[k] = v`: replace in place when present, else append (Python dicts
preserve insertion order). -/
def insertA {α : Type} (m : List (String × α)) (k : String) (v : α) :
    List (String × α) :=
  if (lookupA m k).isSome then
    m.map (fun p => if p.1 = k then (k, v) else p)
  else m ++ [(k, v)]

/-- `d.pop(k, None)`. -/
def eraseA {α : Type} (m : List (String × α)) (k : String) :
    List (String × α) :=
  m.filter (fun p => decide ¬(p.1 = k))

/-- Mutate the entry at `k` in place (Python object mutation through the
reference held in the dict). -/
def modifyA {α : Type} (m : List (String × α)) (k : String) (f : α → α) :
    List (String × α) :=
  m.map (fun p => if p.1 = k then (k, f p.2) else p)

/-! ### Catalog / stock primitives (`ProductCatalog`) -/

/-- `get_product(name)`: first `products` row with that name. -/
def getProduct (db : DB) (name : String) : Option Product :=
  db.products.find? (fun p => decide (p.name = name))

/-- `_fetch_stock_state`: `(stock_qty, min_stock)` of the first row named
`label`, or `None` when no such row. -/
def fetchStockState (db : DB) (label : String) :
    Option (Option ℚ × Option ℚ) :=
  (getProduct db label).map (fun p => (p.stock_qty, p.min_stock))

/-- `dec_stock`: `UPDATE products SET stock_qty = MAX(0, COALESCE(stock_qty,0) - qty)
WHERE name=? AND track_stock=1`. -/
def decStockDB (db : DB) (label : String) (qty : ℚ) : DB :=
  { db with products := db.products.map (fun p =>
      if p.name = label ∧ p.track_stock = 1 then
        { p with stock_qty := some (max 0 (p.stock_qty.getD 0 - qty)) }
      else p) }

/-- `inc_stock`: `UPDATE products SET stock_qty = COALESCE(stock_qty,0) + qty
WHERE name=? AND track_stock=1`.  Also appends to the ghost restock log. -/
def incStockDB (db : DB) (label : String) (qty : ℚ) : DB :=
  { db with
      products := db.products.map (fun p =>
        if p.name = label ∧ p.track_stock = 1 then
          { p with stock_qty := some (p.stock_qty.getD 0 + qty) }
        else p),
      restock_log := db.restock_log ++ [(label, qty)] }

/-- `get_ps_rate_hour_cents(mode)`: hourly price of the first product in the
rental-tier category for `mode` (`P2` → "PlayStation 2 Players", anything
else → "PlayStation 4 Players"). -/
def psRateHourCents (db : DB) (mode : String) : Option ℤ :=
  let cat := if mode = "P2" then "PlayStation 2 Players"
             else "PlayStation 4 Players"
  (db.products.find? (fun p => decide (p.category = cat))).map (·.price_cents)

/-- Is `name` a tracked product (`prod and prod["track_stock"] == 1`)? -/
def trackedName (db : DB) (name : String) : Bool :=
  match getProduct db name with
  | some p => decide (p.track_stock = 1)
  | none => false

/-! ### Transaction plumbing (`db_transaction`) -/

/-- Commit at the end of a `with db_transaction()` block.  Consumes the head
of the oracle; on failure the durable store reverts to `snap` (in-memory
mutations made inside the block survive) and the caller sees an exception. -/
def commitTx (snap : DB) (s : EngState) : Bool × EngState :=
  match s.tx_oracle with
  | [] => (true, s)
  | b :: rest =>
      if b then (true, { s with tx_oracle := rest })
      else (false, { s with db := snap, tx_oracle := rest })

/-- `bus.emit(...)`: append to the event trace. -/
def emitE (s : EngState) (e : Event) : EngState :=
  { s with events := s.events ++ [e] }

/-- `order.total_cents` read through the in-memory map (the Python object
held in `self.orders`). -/
def memTotal (s : EngState) (table : String) : ℤ :=
  match lookupA s.orders table with
  | some o => o.total_cents
  | none => 0

/-! ### Order engine (`OrderManager`) -/

/-- Result of `_ensure_db_order_tx`. -/
structure EnsureRes where
  st : EngState
  order : Order
  created : Bool

/-- `_ensure_db_order_tx(conn, table_code, opened_by)`: reuse the open
in-memory order for the table, or insert a fresh `open` row (inside the
caller's transaction) and register it in `self.orders` immediately. -/
def ensureDbOrderTx (s : EngState) (table : String) (now : ℕ)
    (opened_by : String) : EnsureRes :=
  match lookupA s.orders table with
  | some o =>
      if o.status = "open" then ⟨s, o, false⟩
      else ensureNewOrder s table now opened_by
  | none => ensureNewOrder s table now opened_by
where
  ensureNewOrder (s : EngState) (table : String) (now : ℕ)
      (opened_by : String) : EnsureRes :=
    let oid := s.db.next_order_id
    let row : DBOrder := ⟨oid, table, now, "open", opened_by, none, none⟩
    let o : Order := ⟨oid, table, [], "open", 0, opened_by⟩
    ⟨{ s with
        db := { s.db with orders := s.db.orders ++ [row],
                          next_order_id := oid + 1 },
        orders := insertA s.orders table o }, o, true⟩

/-- `INSERT INTO order_items(order_id, product_name, price_cents, qty, note)`. -/
def insertItemRow (s : EngState) (order_id : ℕ) (product : String)
    (price : ℤ) (qty : ℚ) (note : String) : EngState :=
  let iid := s.db.next_item_id
  { s with db := { s.db with
      order_items := s.db.order_items ++ [⟨iid, order_id, product, price, qty, note⟩],
      next_item_id := iid + 1 } }

/-- `order.items.append(OrderItem(...))` through the in-memory map. -/
def appendMemItem (s : EngState) (table : String) (it : OrderItem) : EngState :=
  { s with orders := (modifyA s.orders table
      (fun o => { o with items := o.items ++ [it] })) }

/-- The low-stock condition of `_check_state`:
`new_stock is not None and min_stock is not None and stock >= min_stock and
new_stock <= min_stock`. -/
def lowFlag (stock : ℚ) (stState : Option (Option ℚ × Option ℚ))
    (product : String) : Option (String × ℚ × ℚ × ℚ) :=
  match stState with
  | some (some ns, some ms) =>
      if stock ≥ ms ∧ ns ≤ ms then some (product, stock, ns, ms) else none
  | _ => none

/-- The catalog-refresh condition of `_check_state`:
`new_stock is not None and stock > 0 and new_stock <= 0`. -/
def refreshFlag (stock : ℚ) (stState : Option (Option ℚ × Option ℚ)) : Bool :=
  match stState with
  | some (some ns, _) => decide (stock > 0 ∧ ns ≤ 0)
  | _ => false

/-- Emits performed by `add_item` after a successful commit, in source order:
`table_state_changed` when a new order was created, then
`table_total_changed`, then `catalog_changed`, then `inventory_low`. -/
def addItemEmits (s : EngState) (table : String) (created refresh : Bool)
    (low : Option (String × ℚ × ℚ × ℚ)) : EngState :=
  let s1 := if created then emitE s (.table_state_changed table "occupied") else s
  let s2 := emitE s1 (.table_total_changed table (memTotal s1 table))
  let s3 := if refresh then emitE s2 .catalog_changed else s2
  match low with
  | some (p, b, a, m) => emitE s3 (.inventory_low p b a m)
  | none => s3

/-- Tracked branch of `add_item` after the pre-decrement stock check passed;
`stock` is the pre-read `float(prod["stock_qty"]) or 0.0`. -/
def addItemTracked (table product : String) (price : ℤ) (qty : ℚ) (now : ℕ)
    (cashier note : String) (stock : ℚ) (s : EngState) :
    Except Err Unit × EngState :=
  let snap := s.db
  let e := ensureDbOrderTx s table now cashier
  let s2 := { e.st with db := decStockDB e.st.db product qty }
  let stState := fetchStockState s2.db product
  let iid := s2.db.next_item_id
  let s3 := insertItemRow s2 e.order.id product price qty note
  let s4 := appendMemItem s3 table ⟨product, price, qty, note, some iid⟩
  let c := commitTx snap s4
  if c.1 then
    (.ok (), addItemEmits c.2 table e.created (refreshFlag stock stState)
        (lowFlag stock stState product))
  else (.error .dbFail, c.2)

/-- Untracked branch of `add_item` (unknown product, or `track_stock ≠ 1`). -/
def addItemPlain (table product : String) (price : ℤ) (qty : ℚ) (now : ℕ)
    (cashier note : String) (s : EngState) : Except Err Unit × EngState :=
  let snap := s.db
  let e := ensureDbOrderTx s table now cashier
  let iid := e.st.db.next_item_id
  let s3 := insertItemRow e.st e.order.id product price qty note
  let s4 := appendMemItem s3 table ⟨product, price, qty, note, some iid⟩
  let c := commitTx snap s4
  if c.1 then (.ok (), addItemEmits c.2 table e.created false none)
  else (.error .dbFail, c.2)

/-- The pre-decrement stock read of `add_item`:
`float(prod["stock_qty"]) if prod["stock_qty"] is not None else 0.0`. -/
def stockOf (db : DB) (name : String) : ℚ :=
  ((getProduct db name).bind (·.stock_qty)).getD 0

/-- `OrderManager.add_item(table_code, product, price_cents, qty, cashier,
note)`.  Raises `StockError` when a tracked product's pre-decrement stock is
below `qty`; otherwise decrements stock, inserts the row and appends to the
in-memory list inside one transaction. -/
def addItem (table product : String) (price : ℤ) (qty : ℚ) (now : ℕ)
    (cashier note : String) (s : EngState) : Except Err Unit × EngState :=
  if trackedName s.db product then
    if stockOf s.db product < qty then (.error .stockErr, s)
    else addItemTracked table product price qty now cashier note
        (stockOf s.db product) s
  else addItemPlain table product price qty now cashier note s

/-- `DELETE FROM order_items WHERE id IN (SELECT ... LIMIT 1)`: drop the
first row matching the in-memory item. -/
def eraseFirstItemRow (rows : List DBItem) (oid : ℕ) (it : OrderItem) :
    List DBItem :=
  match rows with
  | [] => []
  | r :: rest =>
      if r.order_id = oid ∧ r.product_name = it.product ∧
         r.price_cents = it.unit_price_cents ∧ r.qty = it.qty ∧
         r.note = it.note then rest
      else r :: eraseFirstItemRow rest oid it

/-- Row deletion performed by `remove_item`: by `row_id` when known,
otherwise first-match. -/
def deleteItemRow (db : DB) (oid : ℕ) (it : OrderItem) : DB :=
  match it.row_id with
  | some rid => { db with order_items := (db.order_items.filter
      (fun r => decide ¬(r.id = rid))) }
  | none => { db with order_items := eraseFirstItemRow db.order_items oid it }

/-- The recovery condition of `remove_item`/`update_item`:
`before <= min_stock < new_stock` (with all three present). -/
def recoveryFlag (before : ℚ) (stState : Option (Option ℚ × Option ℚ))
    (product : String) : Option (String × ℚ × ℚ × ℚ) :=
  match stState with
  | some (some ns, some ms) =>
      if before ≤ ms ∧ ms < ns then some (product, before, ns, ms) else none
  | _ => none

/-- The stock-recovered catalog refresh condition: `before <= 0 < new_stock`. -/
def recoverRefreshFlag (before : ℚ) (stState : Option (Option ℚ × Option ℚ)) :
    Bool :=
  match stState with
  | some (some ns, _) => decide (before ≤ 0 ∧ 0 < ns)
  | _ => false

/-- Emits performed by `remove_item` after a successful commit:
`catalog_changed`, then `inventory_recovered`, then `table_total_changed`. -/
def removeItemEmits (s : EngState) (table : String) (refresh : Bool)
    (recovery : Option (String × ℚ × ℚ × ℚ)) : EngState :=
  let s1 := if refresh then emitE s .catalog_changed else s
  let s2 := match recovery with
    | some (p, b, a, m) => emitE s1 (.inventory_recovered p b a m)
    | none => s1
  emitE s2 (.table_total_changed table (memTotal s2 table))

/-- `OrderManager.remove_item(table_code, index)`.  Note the source pops the
in-memory item *before* opening the transaction. -/
def removeItem (table : String) (index : ℕ) (s : EngState) :
    Except Err Unit × EngState :=
  match lookupA s.orders table with
  | none => (.ok (), s)
  | some o =>
      if h : index < o.items.length then
        let item := o.items.get ⟨index, h⟩
        let s1 := { s with orders := (modifyA s.orders table
            (fun oo => { oo with items := oo.items.eraseIdx index })) }
        let tracked := trackedName s1.db item.product
        let before := ((getProduct s1.db item.product).bind
            (·.stock_qty)).getD 0
        let snap := s1.db
        let s2 := if tracked then
            { s1 with db := incStockDB s1.db item.product item.qty } else s1
        let stState := if tracked then fetchStockState s2.db item.product
            else none
        let s3 := { s2 with db := deleteItemRow s2.db o.id item }
        let c := commitTx snap s3
        if c.1 then
          (.ok (), removeItemEmits c.2 table
              (tracked && recoverRefreshFlag before stState)
              (if tracked then recoveryFlag before stState item.product
               else none))
        else (.error .dbFail, c.2)
      else (.ok (), s)

/-- `UPDATE order_items SET qty=?, note=? WHERE id IN (SELECT ... LIMIT 1)`. -/
def updateFirstItemRow (rows : List DBItem) (oid : ℕ) (it : OrderItem)
    (nq : ℚ) (nn : String) : List DBItem :=
  match rows with
  | [] => []
  | r :: rest =>
      if r.order_id = oid ∧ r.product_name = it.product ∧
         r.price_cents = it.unit_price_cents ∧ r.qty = it.qty ∧
         r.note = it.note then { r with qty := nq, note := nn } :: rest
      else r :: updateFirstItemRow rest oid it nq nn

/-- Row update performed by `update_item`. -/
def updateItemRow (db : DB) (oid : ℕ) (it : OrderItem) (nq : ℚ)
    (nn : String) : DB :=
  match it.row_id with
  | some rid => { db with order_items := (db.order_items.map
      (fun r => if r.id = rid then { r with qty := nq, note := nn } else r)) }
  | none => { db with order_items := updateFirstItemRow db.order_items oid it nq nn }

/-- Emits performed by `update_item` after a successful commit:
`catalog_changed`, `inventory_low`, `inventory_recovered`,
`table_total_changed`. -/
def updateItemEmits (s : EngState) (table : String) (refresh : Bool)
    (low recovery : Option (String × ℚ × ℚ × ℚ)) : EngState :=
  let s1 := if refresh then emitE s .catalog_changed else s
  let s2 := match low with
    | some (p, b, a, m) => emitE s1 (.inventory_low p b a m)
    | none => s1
  let s3 := match recovery with
    | some (p, b, a, m) => emitE s2 (.inventory_recovered p b a m)
    | none => s2
  emitE s3 (.table_total_changed table (memTotal s3 table))

/-- Transactional part of `update_item` once the item, new quantity and new
note are fixed (called with `0 < new_qty` and a real change present);
`index` locates the mutated in-memory item object. -/
def updateItemTx (table : String) (item : OrderItem) (oid index : ℕ)
    (new_qty : ℚ) (new_note : String) (s : EngState) :
    Except Err Bool × EngState :=
  let tracked := trackedName s.db item.product
  let before := ((getProduct s.db item.product).bind (·.stock_qty)).getD 0
  let delta := new_qty - item.qty
  let snap := s.db
  if tracked ∧ 0 < delta then
    if before < delta - qEps then (.error .stockErr, s)
    else
      let s1 := { s with db := decStockDB s.db item.product delta }
      let stState := fetchStockState s1.db item.product
      let s2 := { s1 with db := updateItemRow s1.db oid item new_qty new_note }
      let s3 := { s2 with orders := (modifyA s2.orders table
          (fun oo => { oo with items := (oo.items.set index
              { item with qty := new_qty, note := new_note }) })) }
      let c := commitTx snap s3
      if c.1 then
        (.ok true, updateItemEmits c.2 table (refreshFlag before stState)
            (lowFlag before stState item.product) none)
      else (.error .dbFail, c.2)
  else if tracked ∧ delta < 0 then
      let s1 := { s with db := incStockDB s.db item.product (-delta) }
      let stState := fetchStockState s1.db item.product
      let s2 := { s1 with db := updateItemRow s1.db oid item new_qty new_note }
      let s3 := { s2 with orders := (modifyA s2.orders table
          (fun oo => { oo with items := (oo.items.set index
              { item with qty := new_qty, note := new_note }) })) }
      let c := commitTx snap s3
      if c.1 then
        (.ok true, updateItemEmits c.2 table (recoverRefreshFlag before stState)
            none (recoveryFlag before stState item.product))
      else (.error .dbFail, c.2)
  else
      let s2 := { s with db := updateItemRow s.db oid item new_qty new_note }
      let s3 := { s2 with orders := (modifyA s2.orders table
          (fun oo => { oo with items := (oo.items.set index
              { item with qty := new_qty, note := new_note }) })) }
      let c := commitTx snap s3
      if c.1 then (.ok true, updateItemEmits c.2 table false none none)
      else (.error .dbFail, c.2)

/-- `OrderManager.update_item(table_code, index, qty=..., note=...)`. -/
def updateItem (table : String) (index : ℕ) (qty? : Option ℚ)
    (note? : Option String) (s : EngState) : Except Err Bool × EngState :=
  match lookupA s.orders table with
  | none => (.ok false, s)
  | some o =>
      if h : index < o.items.length then
        let item := o.items.get ⟨index, h⟩
        let new_qty := qty?.getD item.qty
        if new_qty ≤ 0 then
          let r := removeItem table index s
          (r.1.map (fun _ => true), r.2)
        else
          let new_note := (match note? with
            | some n => n.trim
            | none => item.note).trim
          if |new_qty - item.qty| < qEps ∧ new_note = item.note then
            (.ok true, s)
          else updateItemTx table item o.id index new_qty new_note s
      else (.ok false, s)

/-! ### PlayStation session billing -/

/-- The billing line label: `"PS ٢ لاعبين"` for mode `P2`, else
`"PS ٤ لاعبين"`, followed by `" — {minutes} دقيقة"`. -/
def psLineDetail (mode : String) (minutes : ℕ) : String :=
  (if mode = "P2" then "PS ٢ لاعبين" else "PS ٤ لاعبين")
    ++ " — " ++ toString minutes ++ " دقيقة"

/-- The billed amount: `int(round(rate / 60.0 * minutes))` when a positive
rate is configured, else `0`. -/
def psBillAmount (rate : Option ℤ) (minutes : ℕ) : ℤ :=
  match rate with
  | some r => if 0 < r then pyRound ((r : ℚ) / 60 * (minutes : ℚ)) else 0
  | none => 0

/-- The `finally:` block of `_close_session_and_bill`: pop the in-memory
session, delete the durable row in its own transaction, emit
`ps_state_changed(table, False)`.  `bodyRes` is the `try:` body's outcome;
an exception raised by the `finally` transaction replaces it. -/
def closeSessionFinally (table : String) (bodyRes : Except Err Unit)
    (s : EngState) : Except Err Unit × EngState :=
  let s1 := { s with ps_sessions := eraseA s.ps_sessions table }
  let snap := s1.db
  let s2 := { s1 with db := { s1.db with
      ps_sessions := eraseA s1.db.ps_sessions table } }
  let c := commitTx snap s2
  if c.1 then (bodyRes, emitE c.2 (.ps_state_changed table false))
  else (.error .dbFail, c.2)

/-- `OrderManager._close_session_and_bill(table_code)`: bill the elapsed
time of the table's session (if any) as an ordinary `add_item` line, then
always drop the session. -/
def closeSessionAndBill (table : String) (now : ℕ) (s : EngState) :
    Except Err Unit × EngState :=
  match lookupA s.ps_sessions table with
  | none => (.ok (), s)
  | some sess =>
      let elapsed := sess.total_seconds + (now - sess.started_at)
      let minutes := max 1 (elapsed / 60)
      let rate := psRateHourCents s.db sess.mode
      let amount := psBillAmount rate minutes
      let detail := psLineDetail sess.mode minutes
      let r := addItem table detail amount 1 now "cashier" "" s
      closeSessionFinally table r.1 r.2

/-- `INSERT OR REPLACE INTO ps_sessions(...)`. -/
def upsertPsRow (db : DB) (table : String) (sess : DBSession) : DB :=
  { db with ps_sessions := insertA db.ps_sessions table sess }

/-- `OrderManager.ps_start(table_code, mode)`: bill any running session
first, then start a fresh one (in memory, then durably). -/
def psStart (table mode : String) (now : ℕ) (s : EngState) :
    Except Err Unit × EngState :=
  let r := closeSessionAndBill table now s
  match r.1 with
  | .error e => (.error e, r.2)
  | .ok _ =>
      let s1 := { r.2 with ps_sessions := (insertA r.2.ps_sessions table
          ⟨mode, now, 0⟩ : List (String × PSSession)) }
      let snap := s1.db
      let s2 := { s1 with db := upsertPsRow s1.db table ⟨mode, now, 0⟩ }
      let c := commitTx snap s2
      if c.1 then (.ok (), emitE c.2 (.ps_state_changed table true))
      else (.error .dbFail, c.2)

/-- `OrderManager.ps_switch(table_code, new_mode)`: close-and-bill the
current session, then start a new one in `new_mode` with zero accumulated
time. -/
def psSwitch (table new_mode : String) (now : ℕ) (s : EngState) :
    Except Err Unit × EngState :=
  psStart table new_mode now s

/-- `OrderManager.ps_stop(table_code)`. -/
def psStop (table : String) (now : ℕ) (s : EngState) :
    Except Err Unit × EngState :=
  closeSessionAndBill table now s

/-- One step of `snapshot_ps_sessions`: fold the elapsed time into the
in-memory session and upsert the durable row. -/
def snapshotOne (now : ℕ) (s : EngState) (table : String) : EngState :=
  match lookupA s.ps_sessions table with
  | none => s
  | some sess =>
      let elapsed := now - sess.started_at
      let sess1 : PSSession := ⟨sess.mode, now, sess.total_seconds + elapsed⟩
      { s with
          ps_sessions := insertA s.ps_sessions table sess1,
          db := upsertPsRow s.db table ⟨sess1.mode, now, sess1.total_seconds⟩ }

/-- `OrderManager.snapshot_ps_sessions()`: persist every running session's
accumulated time inside one transaction (the in-memory folds happen inside
the transaction, before commit). -/
def snapshotPsSessions (now : ℕ) (s : EngState) :
    Except Err Unit × EngState :=
  if s.ps_sessions = [] then (.ok (), s)
  else
    let snap := s.db
    let keys := s.ps_sessions.map (·.1)
    let s1 := keys.foldl (snapshotOne now) s
    let c := commitTx snap s1
    if c.1 then (.ok (), c.2) else (.error .dbFail, c.2)

/-! ### Merge and settle -/

/-- Re-parent one in-memory item of the source order inside the merge
transaction: rows with a known `row_id` get `order_id` updated; rows without
are inserted fresh under the target order and the in-memory item learns its
new `row_id`. -/
def reparentOne (target_oid : ℕ) (acc : DB × List OrderItem)
    (it : OrderItem) : DB × List OrderItem :=
  match it.row_id with
  | some rid =>
      ({ acc.1 with order_items := (acc.1.order_items.map
          (fun r => if r.id = rid then { r with order_id := target_oid }
                    else r)) }, acc.2 ++ [it])
  | none =>
      let iid := acc.1.next_item_id
      ({ acc.1 with
          order_items := acc.1.order_items ++
            [⟨iid, target_oid, it.product, it.unit_price_cents, it.qty, it.note⟩],
          next_item_id := iid + 1 },
       acc.2 ++ [{ it with row_id := some iid }])

/-- `UPDATE orders SET status='void', closed_at=?, closed_by=? WHERE id=?`. -/
def voidOrderRow (db : DB) (oid : ℕ) (now : ℕ) (user : String) : DB :=
  { db with orders := (db.orders.map (fun o =>
      if o.id = oid then
        { o with status := "void", closed_at := some now, closed_by := some user }
      else o)) }

/-- The part of `merge_tables` from the transaction onwards (both orders
were found open and the source session has been billed; `secondary1` is the
source order re-read from the map after billing). -/
def mergeTablesTx (target source user : String) (now : ℕ)
    (primary_id : ℕ) (secondary1 : Order) (s : EngState) :
    Except Err Bool × EngState :=
  let snap := s.db
  let rep := secondary1.items.foldl (reparentOne primary_id) (s.db, [])
  let s1 := { s with
      db := voidOrderRow rep.1 secondary1.id now user,
      orders := (modifyA s.orders source
        (fun o => { o with items := rep.2 })) }
  let c := commitTx snap s1
  if c.1 then
    let s2 := { c.2 with orders := (modifyA c.2.orders target
        (fun o => { o with
            items := o.items ++ rep.2,
            discount_cents := max 0 (o.discount_cents + secondary1.discount_cents) })) }
    let s3 := { s2 with orders := (modifyA s2.orders source
        (fun o => { o with items := [], status := "void" })) }
    let s4 := { s3 with orders := eraseA s3.orders source }
    let s5 := emitE s4 (.table_state_changed source "free")
    let s6 := emitE s5 (.table_total_changed source 0)
    let s7 := emitE s6 (.ps_state_changed source false)
    let s8 := emitE s7 (.table_total_changed target (memTotal s7 target))
    (.ok true, s8)
  else (.error .dbFail, c.2)

/-- `OrderManager.merge_tables(target_table, source_table)`: fold the source
table's open order into the target's.  Fails (returns `False`) when the
normalized codes coincide or either side is not an open in-memory order;
otherwise bills any running source session first, then re-parents the source
items and voids the source order in one transaction. -/
def mergeTables (target_table source_table user : String) (now : ℕ)
    (s : EngState) : Except Err Bool × EngState :=
  let target := target_table.trim.toUpper
  let source := source_table.trim.toUpper
  if target = "" ∨ source = "" ∨ target = source then (.ok false, s)
  else
    match lookupA s.orders target, lookupA s.orders source with
    | some primary, some secondary =>
        if primary.status = "open" ∧ secondary.status = "open" then
          let r := closeSessionAndBill source now s
          match r.1 with
          | .error e => (.error e, r.2)
          | .ok _ =>
              match lookupA r.2.orders source with
              | none => (.ok false, r.2)
              | some secondary1 =>
                  mergeTablesTx target source user now primary.id secondary1 r.2
        else (.ok false, s)
    | _, _ => (.ok false, s)

/-- `UPDATE orders SET status='paid', closed_at=?, closed_by=? WHERE id=?`. -/
def payOrderRow (db : DB) (oid : ℕ) (now : ℕ) (cashier : String) : DB :=
  { db with orders := (db.orders.map (fun o =>
      if o.id = oid then
        { o with status := "paid", closed_at := some now, closed_by := some cashier }
      else o)) }

/-- The part of `settle` after the session close-and-bill: look up the
in-memory open order, insert the Payment row and flip the order row to
`paid` in one transaction, then (only after commit) clear the in-memory
entry and emit. -/
def settleCore (table method cashier : String) (now : ℕ) (s : EngState) :
    Except Err Bool × EngState :=
  match lookupA s.orders table with
  | none => (.ok false, s)
  | some o =>
      let amount := o.total_cents
      let snap := s.db
      let s1 := { s with db := { s.db with
          payments := s.db.payments ++
            [(⟨s.db.next_payment_id, o.id, method, amount, now, cashier⟩ : DBPayment)],
          next_payment_id := s.db.next_payment_id + 1 } }
      let s2 := { s1 with db := payOrderRow s1.db o.id now cashier }
      let c := commitTx snap s2
      if c.1 then
        let s3 := { c.2 with orders := (modifyA c.2.orders table
            (fun oo => { oo with status := "paid" })) }
        let s4 := { s3 with orders := eraseA s3.orders table }
        let s5 := emitE s4 (.table_state_changed table "free")
        let s6 := emitE s5 (.table_total_changed table 0)
        let s7 := emitE s6 (.ps_state_changed table false)
        (.ok true, s7)
      else (.error .dbFail, c.2)

/-- `OrderManager.settle(table_code, method, cashier)`: close-and-bill any
running session, then insert the Payment row and flip the order to `paid` in
one transaction; only after a successful commit is the table cleared from
the in-memory map. -/
def settle (table method cashier : String) (now : ℕ) (s : EngState) :
    Except Err Bool × EngState :=
  let r := closeSessionAndBill table now s
  match r.1 with
  | .error e => (.error e, r.2)
  | .ok _ => settleCore table method cashier now r.2

/-! ### Operation traces -/

/-- One externally-invokable engine operation (the mutating surface the
invariants quantify over). -/
inductive Op where
  | addItem (table product : String) (price : ℤ) (qty : ℚ) (now : ℕ)
      (cashier note : String)
  | removeItem (table : String) (index : ℕ)
  | updateItem (table : String) (index : ℕ) (qty? : Option ℚ)
      (note? : Option String)
  | mergeTables (target source user : String) (now : ℕ)
  | settle (table method cashier : String) (now : ℕ)
  | psStart (table mode : String) (now : ℕ)
  | psSwitch (table mode : String) (now : ℕ)
  | psStop (table : String) (now : ℕ)
  | snapshot (now : ℕ)
deriving DecidableEq

/-- Run one operation; exceptions propagate to the UI caller, the state
(including any in-memory mutations already made) persists. -/
def runOp (s : EngState) (op : Op) : EngState :=
  match op with
  | .addItem t p price qty now c n => (addItem t p price qty now c n s).2
  | .removeItem t i => (removeItem t i s).2
  | .updateItem t i q? n? => (updateItem t i q? n? s).2
  | .mergeTables tg src u now => (mergeTables tg src u now s).2
  | .settle t m c now => (settle t m c now s).2
  | .psStart t m now => (psStart t m now s).2
  | .psSwitch t m now => (psSwitch t m now s).2
  | .psStop t now => (psStop t now s).2
  | .snapshot now => (snapshotPsSessions now s).2

/-- Run a sequence of operations. -/
def runTrace (s : EngState) (ops : List Op) : EngState :=
  ops.foldl runOp s

/-! ## Concrete scenario fixtures and helpers -/

/-- Is an event an `inventory_low` emission? -/
def isLowEvent : Event → Bool
  | .inventory_low .. => true
  | _ => false

/-- Number of `inventory_low` events emitted so far. -/
def lowCount (s : EngState) : ℕ :=
  (s.events.filter isLowEvent).length

/-- Project an in-memory item to its visible fields. -/
def itemView (i : OrderItem) : String × ℤ × ℚ × String :=
  (i.product, i.unit_price_cents, i.qty, i.note)

/-- The items of the in-memory open order of a table, projected. -/
def memItems (s : EngState) (table : String) :
    Option (List (String × ℤ × ℚ × String)) :=
  (lookupA s.orders table).map (fun o => o.items.map itemView)

/-- An empty store (fresh database, no products). -/
def emptyDB : DB := ⟨[], [], [], [], [], 0, 0, 0, []⟩

/-- Fresh engine state whose single upcoming transaction commit fails. -/
def c7State : EngState := ⟨emptyDB, [], [], [], [false]⟩

/-- Store holding one product in the P2 rental-tier category at 6000
cents/hour (100 cents/minute). -/
def c8DB : DB :=
  ⟨[⟨"PS2 hour", "PlayStation 2 Players", 6000, 0, none, none⟩],
   [], [], [], [], 0, 0, 0, []⟩

/-- Initial engine state for the session scenario. -/
def c8Start : EngState := ⟨c8DB, [], [], [], []⟩

/-- Checkpoint: state after `ps_start(T05, "P2")` at t=0 (verified below). -/
def c8AfterStart : EngState :=
  ⟨{ c8DB with ps_sessions := [("T05", ⟨"P2", 0, 0⟩)] },
   [], [("T05", ⟨"P2", 0, 0⟩)], [.ps_state_changed "T05" true], []⟩

/-- Checkpoint: state after `ps_switch(T05, "P4")` at t=90 (verified below). -/
def c8Final : EngState :=
  ⟨{ c8DB with
      orders := [⟨0, "T05", 90, "open", "cashier", none, none⟩],
      order_items := [⟨0, 0, "PS ٢ لاعبين — 1 دقيقة", 100, 1, ""⟩],
      ps_sessions := [("T05", ⟨"P4", 90, 0⟩)],
      next_order_id := 1, next_item_id := 1 },
   [("T05", ⟨0, "T05", [⟨"PS ٢ لاعبين — 1 دقيقة", 100, 1, "", some 0⟩],
      "open", 0, "cashier"⟩)],
   [("T05", ⟨"P4", 90, 0⟩)],
   [.ps_state_changed "T05" true, .table_state_changed "T05" "occupied",
    .table_total_changed "T05" 100, .ps_state_changed "T05" false,
    .ps_state_changed "T05" true], []⟩

/-- Store with the tracked product `Espresso`, `stock_qty=2, min_stock=1`. -/
def c9DB : DB :=
  ⟨[⟨"Espresso", "Drinks", 300, 1, some 2, some 1⟩],
   [], [], [], [], 0, 0, 0, []⟩

/-- Initial engine state for the Espresso scenario. -/
def c9S0 : EngState := ⟨c9DB, [], [], [], []⟩

/-- Checkpoint: state after the first `add_item(T01, Espresso, 1)`
(verified below): stock is 1 and `inventory_low` has already fired. -/
def c9S1 : EngState :=
  ⟨⟨[⟨"Espresso", "Drinks", 300, 1, some 1, some 1⟩],
    [⟨0, "T01", 10, "open", "cashier", none, none⟩],
    [⟨0, 0, "Espresso", 300, 1, ""⟩],
    [], [], 1, 1, 0, []⟩,
   [("T01", ⟨0, "T01", [⟨"Espresso", 300, 1, "", some 0⟩], "open", 0, "cashier"⟩)],
   [],
   [.table_state_changed "T01" "occupied", .table_total_changed "T01" 300,
    .inventory_low "Espresso" 2 1 1], []⟩

/-- Checkpoint: state after the second `add_item(T01, Espresso, 1)`
(verified below): stock is 0, a second `inventory_low` and a
`catalog_changed` have fired. -/
def c9S2 : EngState :=
  ⟨⟨[⟨"Espresso", "Drinks", 300, 1, some 0, some 1⟩],
    [⟨0, "T01", 10, "open", "cashier", none, none⟩],
    [⟨0, 0, "Espresso", 300, 1, ""⟩, ⟨1, 0, "Espresso", 300, 1, ""⟩],
    [], [], 1, 2, 0, []⟩,
   [("T01", ⟨0, "T01",
      [⟨"Espresso", 300, 1, "", some 0⟩, ⟨"Espresso", 300, 1, "", some 1⟩],
      "open", 0, "cashier"⟩)],
   [],
   [.table_state_changed "T01" "occupied", .table_total_changed "T01" 300,
    .inventory_low "Espresso" 2 1 1, .table_total_changed "T01" 600,
    .catalog_changed, .inventory_low "Espresso" 1 0 1], []⟩

/-- Fixture for the billing-formula witness: a P2 session on `T05` with 30
accumulated seconds, catalog as in `c8DB` (P2 rate 6000 cents/hour). -/
def c5State : EngState := ⟨c8DB, [], [("T05", ⟨"P2", 0, 30⟩)], [], []⟩

/-- Fixture for the settlement witness: table `T02` has an open order with
one 400-cent item; no session, all commits succeed. -/
def c3Order : Order := ⟨0, "T02", [⟨"Tea", 400, 1, "", some 0⟩], "open", 0, "w"⟩

/-- Engine state around `c3Order`. -/
def c3State : EngState :=
  ⟨⟨[], [⟨0, "T02", 5, "open", "w", none, none⟩], [⟨0, 0, "Tea", 400, 1, ""⟩],
    [], [], 1, 1, 0, []⟩,
   [("T02", c3Order)], [], [], []⟩

/-- C6 witness fixture: target order on `T01`. -/
def c6Primary : Order := ⟨0, "T01", [⟨"Cola", 100, 1, "", some 0⟩], "open", 0, "a"⟩

/-- C6 witness fixture: source order on `T02` (before billing). -/
def c6Secondary : Order :=
  ⟨1, "T02", [⟨"Tea", 200, 1, "", some 1⟩, ⟨"Cake", 500, 1, "", some 2⟩],
   "open", 0, "b"⟩

/-- C6 witness fixture: source order on `T02` after its P4 session is
billed (50 cents for one minute at 3000 cents/hour). -/
def c6Secondary1 : Order :=
  ⟨1, "T02", [⟨"Tea", 200, 1, "", some 1⟩, ⟨"Cake", 500, 1, "", some 2⟩,
    ⟨"PS ٤ لاعبين — 1 دقيقة", 50, 1, "", some 3⟩], "open", 0, "b"⟩

/-- C6 witness fixture: two open tables, `T02` carrying an active P4
session. -/
def c6State : EngState :=
  ⟨⟨[⟨"PS4 hour", "PlayStation 4 Players", 3000, 0, none, none⟩],
    [⟨0, "T01", 0, "open", "a", none, none⟩,
     ⟨1, "T02", 0, "open", "b", none, none⟩],
    [⟨0, 0, "Cola", 100, 1, ""⟩, ⟨1, 1, "Tea", 200, 1, ""⟩,
     ⟨2, 1, "Cake", 500, 1, ""⟩],
    [], [("T02", ⟨"P4", 0, 0⟩)], 2, 3, 0, []⟩,
   [("T01", c6Primary), ("T02", c6Secondary)],
   [("T02", ⟨"P4", 0, 0⟩)], [], []⟩

/-- Checkpoint: `c6State` after `_close_session_and_bill("T02")` at t=60
(verified inside the C6 witness). -/
def c6S1 : EngState :=
  ⟨⟨[⟨"PS4 hour", "PlayStation 4 Players", 3000, 0, none, none⟩],
    [⟨0, "T01", 0, "open", "a", none, none⟩,
     ⟨1, "T02", 0, "open", "b", none, none⟩],
    [⟨0, 0, "Cola", 100, 1, ""⟩, ⟨1, 1, "Tea", 200, 1, ""⟩,
     ⟨2, 1, "Cake", 500, 1, ""⟩,
     ⟨3, 1, "PS ٤ لاعبين — 1 دقيقة", 50, 1, ""⟩],
    [], [], 2, 4, 0, []⟩,
   [("T01", c6Primary), ("T02", c6Secondary1)],
   [], [.table_total_changed "T02" 750, .ps_state_changed "T02" false], []⟩

/-- Number of `open` rows for a table code in an orders table. -/
def countOpenRows (rows : List DBOrder) (t : String) : ℕ :=
  (rows.filter
    (fun o => decide (o.status = "open" ∧ o.table_code = t))).length

/-- Number of `open` order rows for a table code. -/
def countOpen (db : DB) (t : String) : ℕ :=
  countOpenRows db.orders t

/-- The inductive invariant behind "at most one open order per table",
phrased on the only two components the property depends on — the durable
orders table and the in-memory map: (1) every table code with an open row
has at most one; (2) every open row is mirrored by the in-memory entry for
its table (same id); (3) every in-memory entry is `open`. -/
def Inv4Core (rows : List DBOrder) (mem : List (String × Order)) : Prop :=
  (∀ o ∈ rows, o.status = "open" → countOpenRows rows o.table_code ≤ 1) ∧
  (∀ o ∈ rows, o.status = "open" →
    (lookupA mem o.table_code).map (fun mo => mo.id) = some o.id) ∧
  (∀ p ∈ mem, p.2.status = "open")

/-- The invariant of an engine state. -/
def Inv4 (s : EngState) : Prop :=
  Inv4Core s.db.orders s.orders

/-- Sum of the quantities restocked for a product name (ghost log of the
committed `inc_stock` calls made by removals/reductions). -/
def restockSum (db : DB) (name : String) : ℚ :=
  ((db.restock_log.filter (fun e => decide (e.1 = name))).map (fun e => e.2)).sum

/-- Every `products` row carries a nonnegative stock (missing = 0). -/
def StockOK (db : DB) : Prop :=
  ∀ p ∈ db.products, 0 ≤ p.stock_qty.getD 0

/-- Every item held by the in-memory open orders has a nonnegative
quantity. -/
def GoodMem (s : EngState) : Prop :=
  ∀ e ∈ s.orders, ∀ it ∈ e.2.items, 0 ≤ it.qty

/-- The stock-bound relation between a pre-sequence store and a later one:
for every product name, the stock minus the accumulated restock sum never
grows. -/
def C2Bound (db0 db : DB) : Prop :=
  ∀ name, stockOf db name - restockSum db name ≤
    stockOf db0 name - restockSum db0 name

/-- The operations quantified over by the stock-bounds claim (`add_item`,
`remove_item`, `update_item`), with the quantity of an added item
nonnegative. -/
def C2OpOK : Op → Prop
  | .addItem _ _ _ qty _ _ _ => 0 ≤ qty
  | .removeItem _ _ => True
  | .updateItem _ _ _ _ => True
  | _ => False

/-- A table carrying both an open order (one 400-cent Tea) and a running
P2 session (30 s accumulated, rate 6000 cents/hour). -/
def c3SessOrder : Order := ⟨0, "T05", [⟨"Tea", 400, 1, "", some 0⟩], "open", 0, "w"⟩

def c3SessState : EngState :=
  ⟨⟨[⟨"PS2 hour", "PlayStation 2 Players", 6000, 0, none, none⟩],
    [⟨0, "T05", 5, "open", "w", none, none⟩],
    [⟨0, 0, "Tea", 400, 1, ""⟩],
    [], [("T05", ⟨"P2", 0, 30⟩)], 1, 1, 0, []⟩,
   [("T05", c3SessOrder)], [("T05", ⟨"P2", 0, 30⟩)], [], []⟩

/-- `c3SessOrder` after the session has been billed onto it (2 minutes at
6000 cents/hour = 200 cents). -/
def c3SessO1 : Order :=
  ⟨0, "T05",
   [⟨"Tea", 400, 1, "", some 0⟩,
    ⟨"PS ٢ لاعبين — 2 دقيقة", 200, 1, "", some 1⟩], "open", 0, "w"⟩

/-! ## C7: in-memory cache mutated before commit in `add_item` -/

/-- **C7** (code bug).  The spec's propagation policy says a failed mutation
must leave both the store and the in-memory cache exactly as they were
before the call, the cache being updated strictly after a successful commit.
But `add_item` registers the lazily-created order in `self.orders`
(`_ensure_db_order_tx`) and appends to `order.items` *inside* the
transaction: when the commit fails, the durable store rolls back while the
in-memory map now holds a phantom open order (with an id absent from the
store) carrying the new item. -/
theorem addItem_mutates_cache_on_failed_commit :
    (addItem "T01" "Coffee" 300 1 0 "cashier" "" c7State).1 = .error .dbFail ∧
    (addItem "T01" "Coffee" 300 1 0 "cashier" "" c7State).2.db = c7State.db ∧
    (addItem "T01" "Coffee" 300 1 0 "cashier" "" c7State).2.orders =
      [("T01", ⟨0, "T01", [⟨"Coffee", 300, 1, "", some 0⟩], "open", 0, "cashier"⟩)] ∧
    (addItem "T01" "Coffee" 300 1 0 "cashier" "" c7State).2.orders ≠ c7State.orders := by
  refine ⟨by with_unfolding_all rfl, by with_unfolding_all rfl,
    by with_unfolding_all rfl, ?_⟩
  rw [show (addItem "T01" "Coffee" 300 1 0 "cashier" "" c7State).2.orders =
      [("T01", ⟨0, "T01", [⟨"Coffee", 300, 1, "", some 0⟩], "open", 0, "cashier"⟩)]
    from by with_unfolding_all rfl]
  simp [c7State]

/-! ## C8: 90-second P2 session bills 1 minute, not 2 -/

/-- **C8 counterexample.**  After `ps_start(T05,"P2")` at t=0 and
`ps_switch(T05,"P4")` at t=90, the single billing line is for **1** minute
at 100 cents (`minutes = max(1, 90 // 60) = 1`), not the 2 minutes (200
cents) the claim's "rounded up" would demand. -/
theorem psSwitch_90s_bills_one_minute :
    psStart "T05" "P2" 0 c8Start = (.ok (), c8AfterStart) ∧
    psSwitch "T05" "P4" 90 c8AfterStart = (.ok (), c8Final) ∧
    memItems c8Final "T05" =
      some [("PS ٢ لاعبين — 1 دقيقة", 100, 1, "")] ∧
    pyRound ((6000 : ℚ) / 60 * 2) = 200 ∧ ¬((100 : ℤ) = 200) :=
  ⟨by with_unfolding_all rfl, by with_unfolding_all rfl,
   by with_unfolding_all rfl, by with_unfolding_all rfl, by decide⟩

/-- **C8 amended.**  The scenario produces exactly one billing line, for
`max(1, 90 // 60) = 1` minute at the P2 rate (100 cents), and a new active
P4 session with zero accumulated seconds. -/
theorem psSwitch_90s_scenario :
    psStart "T05" "P2" 0 c8Start = (.ok (), c8AfterStart) ∧
    psSwitch "T05" "P4" 90 c8AfterStart = (.ok (), c8Final) ∧
    memItems c8Final "T05" =
      some [("PS ٢ لاعبين — 1 دقيقة", 100, 1, "")] ∧
    (100 : ℤ) = pyRound ((6000 : ℚ) / 60 * ((max 1 (90 / 60) : ℕ) : ℚ)) ∧
    lookupA c8Final.ps_sessions "T05" = some ⟨"P4", 90, 0⟩ :=
  ⟨by with_unfolding_all rfl, by with_unfolding_all rfl,
   by with_unfolding_all rfl, by with_unfolding_all rfl,
   by with_unfolding_all rfl⟩

/-! ## C9: Espresso low-stock scenario -/

/-- **C9 counterexample.**  The claim says the *second* call is the one
that crosses `stock <= min_stock` and emits `inventory_low`; but the first
call already satisfies the crossing test (`stock=2 >= min_stock=1` and
`new_stock=1 <= min_stock=1`) and emits `inventory_low("Espresso", 2, 1, 1)`. -/
theorem espresso_first_add_already_emits_low :
    addItem "T01" "Espresso" 300 1 10 "cashier" "" c9S0 = (.ok (), c9S1) ∧
    c9S1.events.filter isLowEvent = [.inventory_low "Espresso" 2 1 1] :=
  ⟨by with_unfolding_all rfl, by with_unfolding_all rfl⟩

/-- **C9 amended.**  Both successful `add_item` calls emit `inventory_low`
(each decrement starts at `stock >= min_stock` and ends at
`new_stock <= min_stock`); the third call raises `StockError`, changes
nothing, and leaves `stock_qty = 0`. -/
theorem espresso_scenario :
    addItem "T01" "Espresso" 300 1 10 "cashier" "" c9S0 = (.ok (), c9S1) ∧
    (getProduct c9S1.db "Espresso").map (·.stock_qty) = some (some 1) ∧
    c9S1.events.filter isLowEvent = [.inventory_low "Espresso" 2 1 1] ∧
    addItem "T01" "Espresso" 300 1 11 "cashier" "" c9S1 = (.ok (), c9S2) ∧
    (getProduct c9S2.db "Espresso").map (·.stock_qty) = some (some 0) ∧
    c9S2.events.filter isLowEvent =
      [.inventory_low "Espresso" 2 1 1, .inventory_low "Espresso" 1 0 1] ∧
    addItem "T01" "Espresso" 300 1 12 "cashier" "" c9S2 =
      (.error .stockErr, c9S2) :=
  ⟨by with_unfolding_all rfl, by with_unfolding_all rfl,
   by with_unfolding_all rfl, by with_unfolding_all rfl,
   by with_unfolding_all rfl, by with_unfolding_all rfl,
   by with_unfolding_all rfl⟩

/-! ## C1: stock guard of `add_item` -/

/-- The tracked branch of `add_item` can fail only at commit, never with
`StockError` (the pre-decrement check has already passed). -/
lemma addItemTracked_fst_ne_stockErr (table product : String) (price : ℤ)
    (qty : ℚ) (now : ℕ) (cashier note : String) (stock : ℚ) (s : EngState) :
    (addItemTracked table product price qty now cashier note stock s).1 ≠
      Except.error Err.stockErr := by
  simp only [addItemTracked]
  split
  · simp
  · simp

/-- **C1.**  For a tracked product, `add_item` raises `StockError` exactly
when the pre-decrement stock (`COALESCE(stock_qty, 0)`) is below the
requested quantity, and in that case the call returns with the engine state
(store and in-memory caches) completely untouched; when the stock suffices
the call never raises `StockError`. -/
theorem addItem_stock_guard
    (s : EngState) (table product cashier note : String) (price : ℤ)
    (qty : ℚ) (now : ℕ) (prod : Product)
    (hp : getProduct s.db product = some prod)
    (ht : prod.track_stock = 1) :
    (prod.stock_qty.getD 0 < qty →
      addItem table product price qty now cashier note s =
        (.error .stockErr, s)) ∧
    (qty ≤ prod.stock_qty.getD 0 →
      (addItem table product price qty now cashier note s).1 ≠
        .error .stockErr) := by
  have htr : trackedName s.db product = true := by
    simp [trackedName, hp, ht]
  have hst : stockOf s.db product = prod.stock_qty.getD 0 := by
    simp [stockOf, hp]
  constructor
  · intro hlt
    have hlt2 : stockOf s.db product < qty := hst ▸ hlt
    simp [addItem, htr, hlt2]
  · intro hle
    have hnlt : ¬ stockOf s.db product < qty := by
      rw [hst]; exact not_lt.mpr hle
    simp only [addItem, htr, if_true, hnlt, if_false]
    exact addItemTracked_fst_ne_stockErr table product price qty now
      cashier note _ s

/-- **C1 witness**: with `Espresso` at stock 2, requesting quantity 5
raises `StockError` and leaves the state exactly unchanged. -/
theorem addItem_stock_guard_witness :
    getProduct c9S0.db "Espresso" =
      some ⟨"Espresso", "Drinks", 300, 1, some 2, some 1⟩ ∧
    addItem "T01" "Espresso" 300 5 0 "user" "" c9S0 =
      (.error .stockErr, c9S0) := by
  have hp : getProduct c9S0.db "Espresso" =
      some ⟨"Espresso", "Drinks", 300, 1, some 2, some 1⟩ := by
    with_unfolding_all rfl
  refine ⟨hp, ?_⟩
  exact (addItem_stock_guard c9S0 "T01" "Espresso" "user" "" 300 5 0 _
      hp rfl).1 (of_decide_eq_true (by with_unfolding_all rfl))

/-! ## Map lemmas -/

/-- After `d.pop(k)`, `d.get(k)` is `None`. -/
lemma lookupA_eraseA_self {α : Type} (m : List (String × α)) (k : String) :
    lookupA (eraseA m k) k = none := by
  induction m with
  | nil => rfl
  | cons p t ih =>
      by_cases h : p.1 = k
      · simp only [eraseA, List.filter, h]
        simpa [eraseA] using ih
      · simpa [eraseA, lookupA, List.filter, List.find?, h] using ih

/-- Inserting a fresh key appends. -/
lemma insertA_fresh {α : Type} (m : List (String × α)) (k : String) (v : α)
    (h : lookupA m k = none) : insertA m k v = m ++ [(k, v)] := by
  simp [insertA, h]

/-- Modifying a key absent from the prefix only rewrites the appended entry. -/
lemma modifyA_append_fresh {α : Type} (m : List (String × α)) (k : String)
    (v : α) (f : α → α) (h : lookupA m k = none) :
    modifyA (m ++ [(k, v)]) k f = m ++ [(k, f v)] := by
  induction m with
  | nil => simp [modifyA]
  | cons p t ih =>
      have hpk : ¬ (p.1 = k) := by
        intro hk
        simp [lookupA, List.find?, hk] at h
      have ht : lookupA t k = none := by
        simpa [lookupA, List.find?, hpk] using h
      simp [modifyA, hpk] at ih ⊢
      exact ih ht

/-! ## Projection lemmas for the `add_item` pipeline -/

/-- `_ensure_db_order_tx` only touches `db.orders`, `db.next_order_id` and
the in-memory order map. -/
lemma ensure_proj (s : EngState) (table : String) (now : ℕ) (ob : String) :
    (ensureDbOrderTx s table now ob).st.db.order_items = s.db.order_items ∧
    (ensureDbOrderTx s table now ob).st.db.next_item_id = s.db.next_item_id ∧
    (ensureDbOrderTx s table now ob).st.db.ps_sessions = s.db.ps_sessions ∧
    (ensureDbOrderTx s table now ob).st.db.payments = s.db.payments ∧
    (ensureDbOrderTx s table now ob).st.ps_sessions = s.ps_sessions ∧
    (ensureDbOrderTx s table now ob).st.tx_oracle = s.tx_oracle := by
  unfold ensureDbOrderTx
  rcases h : lookupA s.orders table with _ | o
  · exact ⟨rfl, rfl, rfl, rfl, rfl, rfl⟩
  · by_cases hst : o.status = "open"
    · simp [hst]
    · simp [hst, ensureDbOrderTx.ensureNewOrder]

/-- `addItemEmits` only appends events. -/
lemma addItemEmits_proj (s : EngState) (table : String)
    (created refresh : Bool) (low : Option (String × ℚ × ℚ × ℚ)) :
    (addItemEmits s table created refresh low).db = s.db ∧
    (addItemEmits s table created refresh low).orders = s.orders ∧
    (addItemEmits s table created refresh low).ps_sessions = s.ps_sessions ∧
    (addItemEmits s table created refresh low).tx_oracle = s.tx_oracle := by
  rcases low with _ | ⟨p, b, a, m⟩ <;> cases created <;> cases refresh <;>
    exact ⟨rfl, rfl, rfl, rfl⟩

/-- On an empty commit oracle, the untracked `add_item` branch succeeds,
appends exactly one `order_items` row (under some order id, with the fresh
rowid) and touches neither PS sessions nor payments. -/
lemma addItemPlain_items_spec (table product : String) (price : ℤ) (qty : ℚ)
    (now : ℕ) (cashier note : String) (s : EngState)
    (ho : s.tx_oracle = []) :
    (addItemPlain table product price qty now cashier note s).1 = .ok () ∧
    (∃ oid, (addItemPlain table product price qty now cashier note s).2.db.order_items =
      s.db.order_items ++ [⟨s.db.next_item_id, oid, product, price, qty, note⟩]) ∧
    (addItemPlain table product price qty now cashier note s).2.db.ps_sessions =
      s.db.ps_sessions ∧
    (addItemPlain table product price qty now cashier note s).2.db.payments =
      s.db.payments ∧
    (addItemPlain table product price qty now cashier note s).2.ps_sessions =
      s.ps_sessions ∧
    (addItemPlain table product price qty now cashier note s).2.tx_oracle = [] := by
  obtain ⟨h1, h2, h3, h4, h5, h6⟩ := ensure_proj s table now cashier
  obtain ⟨e1, e2, e3, e4⟩ := addItemEmits_proj
    (appendMemItem (insertItemRow (ensureDbOrderTx s table now cashier).st
        (ensureDbOrderTx s table now cashier).order.id product price qty note)
      table ⟨product, price, qty, note,
        some (ensureDbOrderTx s table now cashier).st.db.next_item_id⟩)
    table (ensureDbOrderTx s table now cashier).created false none
  have hco : (appendMemItem (insertItemRow (ensureDbOrderTx s table now cashier).st
      (ensureDbOrderTx s table now cashier).order.id product price qty note)
      table ⟨product, price, qty, note,
        some (ensureDbOrderTx s table now cashier).st.db.next_item_id⟩).tx_oracle = [] := by
    simp [appendMemItem, insertItemRow, h6, ho]
  unfold addItemPlain
  simp only [commitTx, hco, if_pos]
  refine ⟨trivial, ⟨(ensureDbOrderTx s table now cashier).order.id, ?_⟩, ?_, ?_, ?_, ?_⟩
  · rw [e1]
    simp [appendMemItem, insertItemRow, h1, h2]
  · rw [e1]
    simp [appendMemItem, insertItemRow, h3]
  · rw [e1]
    simp [appendMemItem, insertItemRow, h4]
  · rw [e3]
    simp [appendMemItem, insertItemRow, h5]
  · rw [e4]
    exact hco

/-! ## C5: session billing formula -/

/-- On an empty commit oracle, the `finally:` block of
`_close_session_and_bill` returns the body's outcome and just drops the
session (in memory and durably), then emits. -/
lemma closeSessionFinally_spec (table : String) (bodyRes : Except Err Unit)
    (s : EngState) (ho : s.tx_oracle = []) :
    closeSessionFinally table bodyRes s =
      (bodyRes,
        emitE { s with
            ps_sessions := eraseA s.ps_sessions table,
            db := { s.db with ps_sessions := eraseA s.db.ps_sessions table } }
          (.ps_state_changed table false)) := by
  unfold closeSessionFinally
  simp [commitTx, ho]

/-- **C5.**  Closing an active session bills exactly one line whose amount
is `round(rate_per_hour / 60 * minutes)` with
`minutes = max(1, elapsed // 60)` and
`elapsed = accumulated_seconds + max(0, now - started_at)` (the truncated
natural subtraction *is* `max(0, now - started_at)`), the rate being
resolved from the catalog's rental-tier category for the session's mode; a
missing or non-positive rate bills amount `0`; in every case the close
succeeds and the session is gone afterwards.  (The billing line is an
untracked ad-hoc product, per the source comment "PS line is NOT a DB
product".) -/
theorem closeSession_billing_formula
    (s : EngState) (table : String) (now : ℕ) (sess : PSSession)
    (hs : lookupA s.ps_sessions table = some sess)
    (hdet : trackedName s.db (psLineDetail sess.mode
      (max 1 ((sess.total_seconds + (now - sess.started_at)) / 60))) = false)
    (ho : s.tx_oracle = []) :
    (closeSessionAndBill table now s).1 = .ok () ∧
    (∃ oid, (closeSessionAndBill table now s).2.db.order_items =
        s.db.order_items ++
          [⟨s.db.next_item_id, oid,
            psLineDetail sess.mode
              (max 1 ((sess.total_seconds + (now - sess.started_at)) / 60)),
            (match psRateHourCents s.db sess.mode with
             | some r =>
                 if 0 < r then
                   pyRound ((r : ℚ) / 60 *
                     ((max 1 ((sess.total_seconds + (now - sess.started_at)) / 60) : ℕ) : ℚ))
                 else 0
             | none => 0),
            1, ""⟩]) ∧
    lookupA (closeSessionAndBill table now s).2.ps_sessions table = none := by
  have hbill : psBillAmount (psRateHourCents s.db sess.mode)
      (max 1 ((sess.total_seconds + (now - sess.started_at)) / 60)) =
      (match psRateHourCents s.db sess.mode with
       | some r =>
           if 0 < r then
             pyRound ((r : ℚ) / 60 *
               ((max 1 ((sess.total_seconds + (now - sess.started_at)) / 60) : ℕ) : ℚ))
           else 0
       | none => 0) := by
    unfold psBillAmount
    rcases psRateHourCents s.db sess.mode with _ | r <;> rfl
  unfold closeSessionAndBill
  rw [hs]
  simp only
  rw [show addItem table (psLineDetail sess.mode
      (max 1 ((sess.total_seconds + (now - sess.started_at)) / 60)))
      (psBillAmount (psRateHourCents s.db sess.mode)
        (max 1 ((sess.total_seconds + (now - sess.started_at)) / 60)))
      1 now "cashier" "" s =
    addItemPlain table (psLineDetail sess.mode
      (max 1 ((sess.total_seconds + (now - sess.started_at)) / 60)))
      (psBillAmount (psRateHourCents s.db sess.mode)
        (max 1 ((sess.total_seconds + (now - sess.started_at)) / 60)))
      1 now "cashier" "" s from by simp [addItem, hdet]]
  obtain ⟨a1, ⟨oid, a2⟩, a3, a4, a5, a6⟩ := addItemPlain_items_spec table
    (psLineDetail sess.mode
      (max 1 ((sess.total_seconds + (now - sess.started_at)) / 60)))
    (psBillAmount (psRateHourCents s.db sess.mode)
      (max 1 ((sess.total_seconds + (now - sess.started_at)) / 60)))
    1 now "cashier" "" s ho
  rw [closeSessionFinally_spec _ _ _ a6]
  refine ⟨by rw [a1], ⟨oid, ?_⟩, ?_⟩
  · simpa [emitE, hbill] using a2
  · simp [emitE, lookupA_eraseA_self]

/-- **C5 witness**: closing the P2 session on `T05` at `now = 100` with 30
accumulated seconds bills `max(1, 130 // 60) = 2` minutes at 6000 cents/hour
(amount 200) and removes the session. -/
theorem closeSession_billing_formula_witness :
    lookupA c5State.ps_sessions "T05" = some ⟨"P2", 0, 30⟩ ∧
    trackedName c5State.db
      (psLineDetail "P2" (max 1 ((30 + (100 - 0)) / 60))) = false ∧
    ((closeSessionAndBill "T05" 100 c5State).1 = .ok () ∧
     (∃ oid, (closeSessionAndBill "T05" 100 c5State).2.db.order_items =
        c5State.db.order_items ++
          [⟨c5State.db.next_item_id, oid,
            psLineDetail "P2" (max 1 ((30 + (100 - 0)) / 60)),
            (match psRateHourCents c5State.db "P2" with
             | some r =>
                 if 0 < r then
                   pyRound ((r : ℚ) / 60 *
                     ((max 1 ((30 + (100 - 0)) / 60) : ℕ) : ℚ))
                 else 0
             | none => 0),
            1, ""⟩]) ∧
     lookupA (closeSessionAndBill "T05" 100 c5State).2.ps_sessions "T05" = none) :=
  ⟨by with_unfolding_all rfl, by with_unfolding_all rfl,
   closeSession_billing_formula c5State "T05" 100 ⟨"P2", 0, 30⟩
     (by with_unfolding_all rfl) (by with_unfolding_all rfl) rfl⟩

/-! ## C3: settlement atomicity -/

/-- With no session for the table, `_close_session_and_bill` is a no-op. -/
lemma closeSessionAndBill_none (table : String) (now : ℕ) (s : EngState)
    (hs : lookupA s.ps_sessions table = none) :
    closeSessionAndBill table now s = (.ok (), s) := by
  unfold closeSessionAndBill
  rw [hs]

/-- Popping a key erases the in-place modification of that key. -/
lemma eraseA_modifyA {α : Type} (m : List (String × α)) (k : String)
    (f : α → α) : eraseA (modifyA m k f) k = eraseA m k := by
  induction m with
  | nil => rfl
  | cons p t ih =>
      by_cases h : p.1 = k <;>
        simp [modifyA, eraseA, List.filter, h] at ih ⊢ <;>
        simpa [eraseA] using ih

/-- **C3 counterexample.**  The claim's clause "settle returns False when
the table has no open order" is refuted by any table carrying a running
session: on `T05` (P2 session, *no* open order) `settle` bills the session,
which lazily creates an open order, settles it, and returns `True`. -/
theorem settle_no_open_order_with_session_not_false :
    lookupA c5State.orders "T05" = none ∧
    lookupA c5State.ps_sessions "T05" = some ⟨"P2", 0, 30⟩ ∧
    (settle "T05" "cash" "w" 100 c5State).1 = .ok true ∧
    ¬((settle "T05" "cash" "w" 100 c5State).1 = .ok false) :=
  ⟨rfl, by with_unfolding_all rfl, by with_unfolding_all rfl,
   of_decide_eq_true (by with_unfolding_all rfl)⟩

/-- **C3** (corrected: `settle` first closes and bills any running session,
so it returns `False` only when the table has no open order *after* that
billing — with a session alone it creates and settles an order instead, see
the counterexample).  Unconditionally in the session: writing `r` for the
state after the session billing prefix (`r = s` itself when the table has
no session), if `r` has no open in-memory order for the table, `settle`
returns `False` and changes nothing beyond the billing; if it has one,
then on a successful commit `settle` inserts exactly one Payment row (for
the order's `total_cents`), flips exactly the order's rows to `paid` with
`closed_at`/`closed_by` set — all in the same transaction — and only then
removes the table from the in-memory map and emits; while on a failed
commit it raises, leaving the store, the in-memory map and the event trace
exactly as after the billing (the order still open, no Payment row). -/
theorem settle_atomic_post_billing
    (s : EngState) (table method cashier : String) (now : ℕ)
    (hok : (closeSessionAndBill table now s).1 = .ok ()) :
    (lookupA (closeSessionAndBill table now s).2.orders table = none →
      settle table method cashier now s =
        (.ok false, (closeSessionAndBill table now s).2)) ∧
    (∀ o, lookupA (closeSessionAndBill table now s).2.orders table = some o →
      ((closeSessionAndBill table now s).2.tx_oracle = [] →
        settle table method cashier now s =
          (.ok true,
           { (closeSessionAndBill table now s).2 with
               db := { (closeSessionAndBill table now s).2.db with
                   payments := (closeSessionAndBill table now s).2.db.payments ++
                     [⟨(closeSessionAndBill table now s).2.db.next_payment_id,
                       o.id, method, o.total_cents, now, cashier⟩],
                   next_payment_id :=
                     (closeSessionAndBill table now s).2.db.next_payment_id + 1,
                   orders := ((closeSessionAndBill table now s).2.db.orders.map
                     (fun r =>
                       if r.id = o.id then
                         { r with status := "paid", closed_at := some now,
                                  closed_by := some cashier }
                       else r)) },
               orders := eraseA (closeSessionAndBill table now s).2.orders table,
               events := (closeSessionAndBill table now s).2.events ++
                 [.table_state_changed table "free",
                  .table_total_changed table 0,
                  .ps_state_changed table false] })) ∧
      (∀ rest, (closeSessionAndBill table now s).2.tx_oracle = false :: rest →
        settle table method cashier now s =
          (.error .dbFail,
           { (closeSessionAndBill table now s).2 with tx_oracle := rest }))) := by
  have hsettle : settle table method cashier now s =
      settleCore table method cashier now (closeSessionAndBill table now s).2 := by
    unfold settle
    simp only
    rw [hok]
  rw [hsettle]
  constructor
  · intro hno
    unfold settleCore
    rw [hno]
  · intro o hso
    constructor
    · intro ho
      unfold settleCore
      rw [hso]
      simp only [payOrderRow, commitTx, ho, eraseA_modifyA, emitE]
      simp
    · intro rest ho
      unfold settleCore
      rw [hso]
      simp only [payOrderRow, commitTx, ho]
      simp

/-- **C3 witness**: `T05` carries an open order (400-cent Tea) *and* a
running P2 session; settling at `now = 100` first bills the session as a
200-cent line on the order, then inserts the one Payment row for the
600-cent total, flips the order row to `paid` and clears the in-memory
entry. -/
theorem settle_atomic_post_billing_witness :
    (closeSessionAndBill "T05" 100 c3SessState).1 = .ok () ∧
    lookupA (closeSessionAndBill "T05" 100 c3SessState).2.orders "T05" =
      some c3SessO1 ∧
    (closeSessionAndBill "T05" 100 c3SessState).2.tx_oracle = [] ∧
    (settle "T05" "cash" "kate" 100 c3SessState).2.db.payments =
      [⟨0, 0, "cash", 600, 100, "kate"⟩] ∧
    settle "T05" "cash" "kate" 100 c3SessState =
      (.ok true,
       { (closeSessionAndBill "T05" 100 c3SessState).2 with
           db := { (closeSessionAndBill "T05" 100 c3SessState).2.db with
               payments :=
                 (closeSessionAndBill "T05" 100 c3SessState).2.db.payments ++
                   [⟨(closeSessionAndBill "T05" 100 c3SessState).2.db.next_payment_id,
                     c3SessO1.id, "cash", c3SessO1.total_cents, 100, "kate"⟩],
               next_payment_id :=
                 (closeSessionAndBill "T05" 100 c3SessState).2.db.next_payment_id + 1,
               orders :=
                 ((closeSessionAndBill "T05" 100 c3SessState).2.db.orders.map
                   (fun r =>
                     if r.id = c3SessO1.id then
                       { r with status := "paid", closed_at := some 100,
                                closed_by := some "kate" }
                     else r)) },
           orders :=
             eraseA (closeSessionAndBill "T05" 100 c3SessState).2.orders "T05",
           events := (closeSessionAndBill "T05" 100 c3SessState).2.events ++
             [.table_state_changed "T05" "free",
              .table_total_changed "T05" 0,
              .ps_state_changed "T05" false] }) :=
  ⟨by with_unfolding_all rfl, by with_unfolding_all rfl,
   by with_unfolding_all rfl, by with_unfolding_all rfl,
   ((settle_atomic_post_billing c3SessState "T05" "cash" "kate" 100
       (by with_unfolding_all rfl)).2 c3SessO1
     (by with_unfolding_all rfl)).1 (by with_unfolding_all rfl)⟩

/-! ## C10: settling a table that has only a running session -/

/-- Looking up a freshly appended key. -/
lemma lookupA_append_self {α : Type} (m : List (String × α)) (k : String)
    (v : α) (h : lookupA m k = none) :
    lookupA (m ++ [(k, v)]) k = some v := by
  induction m with
  | nil => simp [lookupA, List.find?]
  | cons p t ih =>
      by_cases hpk : p.1 = k
      · simp [lookupA, List.find?, hpk] at h
      · have ht : lookupA t k = none := by
          simpa [lookupA, List.find?, hpk] using h
        simpa [lookupA, List.find?, hpk] using ih ht

/-- A pointwise-identity map is the identity. -/
lemma map_id_of_mem {α : Type} (l : List α) (f : α → α)
    (h : ∀ x ∈ l, f x = x) : l.map f = l := by
  induction l with
  | nil => rfl
  | cons x t ih =>
      simp only [List.map, h x (by simp)]
      rw [ih (fun y hy => h y (by simp [hy]))]

/-- Integer casts are fixed by `ratFloor`. -/
lemma ratFloor_intCast (z : ℤ) : ratFloor ((z : ℚ)) = z := by
  simp [ratFloor, Rat.num_intCast, Rat.den_intCast, Int.fdiv_one]

/-- Integer casts are fixed by Python truncation. -/
lemma truncQ_intCast (z : ℤ) : truncQ ((z : ℚ)) = z := by
  unfold truncQ ratCeil
  split
  · rw [show (-(z : ℚ)) = ((-z : ℤ) : ℚ) by push_cast; ring, ratFloor_intCast]
    ring
  · exact ratFloor_intCast z

/-- `ratFloor` of a nonnegative rational is nonnegative. -/
lemma ratFloor_nonneg (q : ℚ) (h : 0 ≤ q) : 0 ≤ ratFloor q :=
  Int.fdiv_nonneg (Rat.num_nonneg.mpr h) (by positivity)

/-- Python `round` of a nonnegative rational is nonnegative. -/
lemma pyRound_nonneg (q : ℚ) (h : 0 ≤ q) : 0 ≤ pyRound q := by
  have hf := ratFloor_nonneg q h
  unfold pyRound
  simp only []
  split
  · exact hf
  · split
    · omega
    · split <;> omega

/-- A session billing amount is never negative. -/
lemma psBillAmount_nonneg (rate : Option ℤ) (minutes : ℕ) :
    0 ≤ psBillAmount rate minutes := by
  unfold psBillAmount
  rcases rate with _ | r
  · exact le_refl 0
  · by_cases hr : 0 < r
    · simpa [hr] using pyRound_nonneg _ (by positivity)
    · simp [hr]

/-- The total of an order holding a single quantity-1 line of a nonnegative
integer amount and no discount is that amount. -/
lemma single_line_total (idv : ℕ) (t D : String) (A : ℤ) (rid : Option ℕ)
    (cb : String) (hA : 0 ≤ A) :
    (Order.mk idv t [⟨D, A, 1, "", rid⟩] "open" 0 cb).total_cents = A := by
  simp [Order.total_cents, Order.subtotal_cents, OrderItem.total_cents,
    truncQ_intCast, hA]

/-- Lazy order creation: on a fresh table with an empty commit oracle, the
untracked `add_item` branch creates the open order row, registers it in
memory with the single new item, and appends the `order_items` row. -/
lemma addItemPlain_create_spec (table product : String) (price : ℤ)
    (qty : ℚ) (now : ℕ) (cashier note : String) (s : EngState)
    (hno : lookupA s.orders table = none) (ho : s.tx_oracle = []) :
    addItemPlain table product price qty now cashier note s =
      (.ok (), addItemEmits
        { s with
            db := { s.db with
                orders := s.db.orders ++
                  [⟨s.db.next_order_id, table, now, "open", cashier, none, none⟩],
                next_order_id := s.db.next_order_id + 1,
                order_items := s.db.order_items ++
                  [⟨s.db.next_item_id, s.db.next_order_id, product, price, qty, note⟩],
                next_item_id := s.db.next_item_id + 1 },
            orders := s.orders ++
              [(table, ⟨s.db.next_order_id, table,
                [⟨product, price, qty, note, some s.db.next_item_id⟩], "open", 0,
                cashier⟩)] }
        table true false none) := by
  unfold addItemPlain ensureDbOrderTx
  rw [hno]
  simp only [ensureDbOrderTx.ensureNewOrder, insertItemRow, appendMemItem]
  rw [insertA_fresh s.orders table _ hno]
  rw [modifyA_append_fresh s.orders table _ _ hno]
  simp [commitTx, ho]

/-- `settleCore` on a table with an in-memory order and an empty commit
oracle: the full success state. -/
lemma settleCore_success (s : EngState) (table method cashier : String)
    (now : ℕ) (o : Order)
    (hso : lookupA s.orders table = some o) (ho : s.tx_oracle = []) :
    settleCore table method cashier now s =
      (.ok true,
       { s with
           db := { s.db with
               payments := s.db.payments ++
                 [⟨s.db.next_payment_id, o.id, method, o.total_cents, now,
                   cashier⟩],
               next_payment_id := s.db.next_payment_id + 1,
               orders := (s.db.orders.map (fun r =>
                 if r.id = o.id then
                   { r with status := "paid", closed_at := some now,
                            closed_by := some cashier }
                 else r)) },
           orders := eraseA s.orders table,
           events := s.events ++
             [.table_state_changed table "free",
              .table_total_changed table 0,
              .ps_state_changed table false] }) := by
  unfold settleCore
  rw [hso]
  simp only [payOrderRow, commitTx, ho, eraseA_modifyA, emitE]
  simp

/-- **C10.**  If a table has an active session but no open order (and fresh
ids, an empty commit oracle, and the billing label not being a tracked
product), `settle` does not return `False`: the session billing `add_item`
lazily creates a new open order holding only the billing line, and `settle`
then marks that very order `paid` (with `closed_at`/`closed_by`), inserts a
Payment row for exactly the billing amount, and returns `True`, clearing
both the in-memory order entry and the session. -/
theorem settle_with_session_no_order
    (s : EngState) (table method cashier : String) (now : ℕ)
    (sess : PSSession)
    (hno : lookupA s.orders table = none)
    (hs : lookupA s.ps_sessions table = some sess)
    (hdet : trackedName s.db (psLineDetail sess.mode
      (max 1 ((sess.total_seconds + (now - sess.started_at)) / 60))) = false)
    (ho : s.tx_oracle = [])
    (hfresh : ∀ r ∈ s.db.orders, ¬(r.id = s.db.next_order_id))
    (hfresh2 : ∀ r ∈ s.db.order_items, ¬(r.order_id = s.db.next_order_id)) :
    (settle table method cashier now s).1 = .ok true ∧
    (settle table method cashier now s).2.db.orders =
      s.db.orders ++
        [⟨s.db.next_order_id, table, now, "paid", "cashier", some now,
          some cashier⟩] ∧
    (settle table method cashier now s).2.db.payments =
      s.db.payments ++
        [⟨s.db.next_payment_id, s.db.next_order_id, method,
          psBillAmount (psRateHourCents s.db sess.mode)
            (max 1 ((sess.total_seconds + (now - sess.started_at)) / 60)),
          now, cashier⟩] ∧
    ((settle table method cashier now s).2.db.order_items.filter
        (fun r => decide (r.order_id = s.db.next_order_id))) =
      [⟨s.db.next_item_id, s.db.next_order_id,
        psLineDetail sess.mode
          (max 1 ((sess.total_seconds + (now - sess.started_at)) / 60)),
        psBillAmount (psRateHourCents s.db sess.mode)
          (max 1 ((sess.total_seconds + (now - sess.started_at)) / 60)),
        1, ""⟩] ∧
    lookupA (settle table method cashier now s).2.orders table = none ∧
    lookupA (settle table method cashier now s).2.ps_sessions table = none := by
  obtain ⟨D, hD⟩ : ∃ D, D = psLineDetail sess.mode
      (max 1 ((sess.total_seconds + (now - sess.started_at)) / 60)) := ⟨_, rfl⟩
  obtain ⟨A, hA⟩ : ∃ A, A = psBillAmount (psRateHourCents s.db sess.mode)
      (max 1 ((sess.total_seconds + (now - sess.started_at)) / 60)) := ⟨_, rfl⟩
  rw [← hD, ← hA]
  have hdet2 : trackedName s.db D = false := by rw [hD]; exact hdet
  have hAnn : 0 ≤ A := hA ▸ psBillAmount_nonneg _ _
  obtain ⟨oNew, hoNew⟩ : ∃ o : Order, o =
      ⟨s.db.next_order_id, table, [⟨D, A, 1, "", some s.db.next_item_id⟩],
        "open", 0, "cashier"⟩ := ⟨_, rfl⟩
  obtain ⟨sC, hsC⟩ : ∃ x : EngState, x = { s with
      db := { s.db with
          orders := s.db.orders ++
            [⟨s.db.next_order_id, table, now, "open", "cashier", none, none⟩],
          next_order_id := s.db.next_order_id + 1,
          order_items := s.db.order_items ++
            [⟨s.db.next_item_id, s.db.next_order_id, D, A, 1, ""⟩],
          next_item_id := s.db.next_item_id + 1 },
      orders := s.orders ++ [(table, oNew)] } := ⟨_, rfl⟩
  have hcreate := addItemPlain_create_spec table D A 1 now "cashier" "" s hno ho
  rw [← hoNew, ← hsC] at hcreate
  obtain ⟨sB, hsB⟩ : ∃ x : EngState,
      x = addItemEmits sC table true false none := ⟨_, rfl⟩
  rw [← hsB] at hcreate
  obtain ⟨pdb, pord, pps, ptx⟩ := addItemEmits_proj sC table true false none
  rw [← hsB] at pdb pord pps ptx
  have hsCtx : sC.tx_oracle = [] := by rw [hsC]; exact ho
  have hBtx : sB.tx_oracle = [] := ptx.trans hsCtx
  have hADD : addItem table D A 1 now "cashier" "" s =
      addItemPlain table D A 1 now "cashier" "" s := by
    simp [addItem, hdet2]
  have hclose : closeSessionAndBill table now s =
      closeSessionFinally table (.ok ()) sB := by
    unfold closeSessionAndBill
    rw [hs]
    simp only
    rw [← hD, ← hA, hADD, hcreate]
  rw [closeSessionFinally_spec _ _ _ hBtx] at hclose
  obtain ⟨sF, hsF⟩ : ∃ x : EngState, x = emitE
      { sB with
          ps_sessions := eraseA sB.ps_sessions table,
          db := { sB.db with ps_sessions := eraseA sB.db.ps_sessions table } }
      (.ps_state_changed table false) := ⟨_, rfl⟩
  rw [← hsF] at hclose
  have hrun : settle table method cashier now s =
      settleCore table method cashier now sF := by
    unfold settle
    rw [hclose]
  have hFord : sF.orders = s.orders ++ [(table, oNew)] := by
    rw [hsF]
    show sB.orders = _
    rw [pord, hsC]
  have hFdbord : sF.db.orders = s.db.orders ++
      [⟨s.db.next_order_id, table, now, "open", "cashier", none, none⟩] := by
    rw [hsF]
    show sB.db.orders = _
    rw [pdb, hsC]
  have hFitems : sF.db.order_items = s.db.order_items ++
      [⟨s.db.next_item_id, s.db.next_order_id, D, A, 1, ""⟩] := by
    rw [hsF]
    show sB.db.order_items = _
    rw [pdb, hsC]
  have hFpay : sF.db.payments = s.db.payments := by
    rw [hsF]
    show sB.db.payments = _
    rw [pdb, hsC]
  have hFnpi : sF.db.next_payment_id = s.db.next_payment_id := by
    rw [hsF]
    show sB.db.next_payment_id = _
    rw [pdb, hsC]
  have hFps : sF.ps_sessions = eraseA s.ps_sessions table := by
    rw [hsF]
    show eraseA sB.ps_sessions table = _
    rw [pps, hsC]
  have hFtx : sF.tx_oracle = [] := by
    rw [hsF]
    show sB.tx_oracle = _
    exact hBtx
  have hFso : lookupA sF.orders table = some oNew := by
    rw [hFord]
    exact lookupA_append_self s.orders table oNew hno
  rw [hrun, settleCore_success sF table method cashier now oNew hFso hFtx]
  have hOid : oNew.id = s.db.next_order_id := by rw [hoNew]
  have hOtot : oNew.total_cents = A := by
    rw [hoNew]
    exact single_line_total _ _ _ _ _ _ hAnn
  refine ⟨rfl, ?_, ?_, ?_, ?_, ?_⟩
  · show sF.db.orders.map _ = _
    rw [hFdbord, List.map_append]
    rw [map_id_of_mem s.db.orders _ (fun r hr => by
      rw [if_neg]
      rw [hOid]
      exact hfresh r hr)]
    simp [hOid]
  · show sF.db.payments ++ _ = _
    rw [hFpay, hFnpi, hOid, hOtot]
  · show (sF.db.order_items.filter _) = _
    rw [hFitems, List.filter_append]
    have hpre : s.db.order_items.filter
        (fun r => decide (r.order_id = s.db.next_order_id)) = [] := by
      rw [List.filter_eq_nil_iff]
      intro r hr
      simpa using hfresh2 r hr
    rw [hpre]
    simp
  · show lookupA (eraseA sF.orders table) table = none
    exact lookupA_eraseA_self sF.orders table
  · show lookupA sF.ps_sessions table = none
    rw [hFps]
    exact lookupA_eraseA_self s.ps_sessions table

/-! ## C6: merging tables -/

/-- `lookupA` on a cons. -/
lemma lookupA_cons {α : Type} (p : String × α) (t : List (String × α))
    (k : String) :
    lookupA (p :: t) k = if p.1 = k then some p.2 else lookupA t k := by
  by_cases h : p.1 = k <;> simp [lookupA, List.find?, h]

/-- `modifyA` on a cons. -/
lemma modifyA_cons {α : Type} (p : String × α) (t : List (String × α))
    (k : String) (f : α → α) :
    modifyA (p :: t) k f =
      (if p.1 = k then (k, f p.2) else p) :: modifyA t k f := rfl

/-- `eraseA` on a cons. -/
lemma eraseA_cons {α : Type} (p : String × α) (t : List (String × α))
    (k : String) :
    eraseA (p :: t) k =
      if p.1 = k then eraseA t k else p :: eraseA t k := by
  by_cases h : p.1 = k <;> simp [eraseA, List.filter, h]

/-- Looking up the modified key maps the stored value. -/
lemma lookupA_modifyA_self {α : Type} (m : List (String × α)) (k : String)
    (f : α → α) : lookupA (modifyA m k f) k = (lookupA m k).map f := by
  induction m with
  | nil => rfl
  | cons p t ih =>
      rw [modifyA_cons]
      by_cases h : p.1 = k
      · rw [if_pos h, lookupA_cons, lookupA_cons, if_pos h, if_pos rfl]
        rfl
      · rw [if_neg h, lookupA_cons, lookupA_cons, if_neg h, if_neg h, ih]

/-- Modifying another key leaves a lookup unchanged. -/
lemma lookupA_modifyA_ne {α : Type} (m : List (String × α)) (k k2 : String)
    (f : α → α) (h : ¬(k2 = k)) :
    lookupA (modifyA m k f) k2 = lookupA m k2 := by
  induction m with
  | nil => rfl
  | cons p t ih =>
      rw [modifyA_cons]
      by_cases hp : p.1 = k
      · have hk2 : ¬(k = k2) := fun hk => h hk.symm
        rw [if_pos hp, lookupA_cons, lookupA_cons]
        simp only [hk2, if_false]
        have : ¬(p.1 = k2) := by rw [hp]; exact hk2
        rw [if_neg this, ih]
      · rw [if_neg hp, lookupA_cons, lookupA_cons, ih]

/-- Erasing another key leaves a lookup unchanged. -/
lemma lookupA_eraseA_ne {α : Type} (m : List (String × α)) (k k2 : String)
    (h : ¬(k2 = k)) : lookupA (eraseA m k) k2 = lookupA m k2 := by
  induction m with
  | nil => rfl
  | cons p t ih =>
      rw [eraseA_cons]
      by_cases hp : p.1 = k
      · have hpk2 : ¬(p.1 = k2) := by
          rw [hp]
          exact fun hk => h hk.symm
        rw [if_pos hp, lookupA_cons, if_neg hpk2, ih]
      · rw [if_neg hp, lookupA_cons, lookupA_cons, ih]

/-- When every item of the source order carries its `row_id`, the re-parent
fold performs no inserts: it rewrites `order_id` on exactly the rows whose
ids appear among the items' row ids, and returns the items unchanged. -/
lemma foldl_reparentOne_rowids (tid : ℕ) (items : List OrderItem)
    (db : DB) (acc : List OrderItem)
    (h : ∀ it ∈ items, (it.row_id).isSome = true) :
    items.foldl (reparentOne tid) (db, acc) =
      ({ db with order_items := (db.order_items.map (fun r =>
          if (some r.id) ∈ items.map (·.row_id) then { r with order_id := tid }
          else r)) }, acc ++ items) := by
  induction items generalizing db acc with
  | nil =>
      simp only [List.foldl_nil, List.map_nil, List.not_mem_nil, if_false,
        List.append_nil]
      rw [show (db.order_items.map (fun r => r)) = db.order_items from
        List.map_id' db.order_items]
  | cons it rest ih =>
      obtain ⟨rid, hrid⟩ : ∃ rid, it.row_id = some rid := by
        have := h it (by simp)
        rcases hr : it.row_id with _ | rid
        · rw [hr] at this
          simp at this
        · exact ⟨rid, rfl⟩
      have hstep : reparentOne tid (db, acc) it =
          ({ db with order_items := (db.order_items.map (fun r =>
              if r.id = rid then { r with order_id := tid } else r)) },
           acc ++ [it]) := by
        simp [reparentOne, hrid]
      rw [List.foldl_cons, hstep,
        ih _ _ (fun x hx => h x (List.mem_cons_of_mem _ hx))]
      refine Prod.ext ?_ (by simp)
      simp only [List.map_map]
      congr 1
      refine List.map_congr_left (fun r _ => ?_)
      simp only [Function.comp]
      by_cases hid : r.id = rid
      · rw [if_pos hid]
        have hmem : (some r.id) ∈ List.map (fun x => x.row_id) (it :: rest) := by
          simp only [List.map_cons, List.mem_cons]
          exact Or.inl (by rw [hrid, hid])
        by_cases hm : (some r.id) ∈ List.map (fun x => x.row_id) rest
        · rw [if_pos ?side, if_pos hmem]
          case side =>
            show (some ({ r with order_id := tid } : DBItem).id) ∈
              List.map (fun x => x.row_id) rest
            exact hm
        · rw [if_neg ?side, if_pos hmem]
          case side =>
            show ¬((some ({ r with order_id := tid } : DBItem).id) ∈
              List.map (fun x => x.row_id) rest)
            exact hm
      · rw [if_neg hid]
        have hhead : ¬(some r.id = it.row_id) := by
          rw [hrid]
          intro hc
          exact hid (Option.some.inj hc)
        by_cases hm : (some r.id) ∈ List.map (fun x => x.row_id) rest
        · have hmem : (some r.id) ∈ List.map (fun x => x.row_id) (it :: rest) := by
            simp only [List.map_cons, List.mem_cons]
            exact Or.inr hm
          rw [if_pos hm, if_pos hmem]
        · have hmem : ¬((some r.id) ∈ List.map (fun x => x.row_id) (it :: rest)) := by
            simp only [List.map_cons, List.mem_cons]
            intro hc
            rcases hc with hc | hc
            · exact hhead hc
            · exact hm hc
          rw [if_neg hm, if_neg hmem]

/-- The merge transaction on an empty commit oracle: returns `True`,
re-parents on the durable side, voids the source order row, and rebuilds
the in-memory map (patch source row ids inside the transaction, extend the
target, void and pop the source). -/
lemma mergeTablesTx_success (target source user : String) (now : ℕ)
    (primary_id : ℕ) (secondary1 : Order) (s : EngState)
    (ho : s.tx_oracle = []) :
    (mergeTablesTx target source user now primary_id secondary1 s).1 =
      .ok true ∧
    (mergeTablesTx target source user now primary_id secondary1 s).2.db =
      voidOrderRow
        (secondary1.items.foldl (reparentOne primary_id) (s.db, [])).1
        secondary1.id now user ∧
    (mergeTablesTx target source user now primary_id secondary1 s).2.orders =
      eraseA (modifyA (modifyA (modifyA s.orders source
        (fun o => { o with items :=
          (secondary1.items.foldl (reparentOne primary_id) (s.db, [])).2 }))
        target (fun o => { o with
            items := o.items ++
              (secondary1.items.foldl (reparentOne primary_id) (s.db, [])).2,
            discount_cents :=
              max 0 (o.discount_cents + secondary1.discount_cents) }))
        source (fun o => { o with items := [], status := "void" })) source ∧
    (mergeTablesTx target source user now primary_id secondary1 s).2.ps_sessions =
      s.ps_sessions := by
  unfold mergeTablesTx
  simp only [commitTx, ho, emitE]
  exact ⟨rfl, rfl, rfl, rfl⟩

/-- **C6.**  `merge_tables` fails (returns `False` with the state exactly
unchanged) when the two codes coincide, or either table has no in-memory
order, or either order is not `open`.  Otherwise — naming `s₁` the state
after the source's running session is billed (`closeSessionAndBill`, the
first thing the success path does) and `secondary1` the source order as of
`s₁` — the merge returns `True` and, in one transaction: every source
OrderItem row is re-parented to the target's order id (none stays parented
to the source order), the source order row is voided with
`closed_at`/`closed_by`, the target's in-memory order gains the source's
items and the sum of the discounts, and the source table disappears from
the in-memory map.  (Hypotheses: normalized table codes, all source items
carry their row ids, the source-order rows correspond to those items, and
commits succeed.) -/
theorem mergeTables_spec
    (s : EngState) (target source user : String) (now : ℕ)
    (htn : target.trim.toUpper = target) (hsn : source.trim.toUpper = source) :
    (target = source →
      mergeTables target source user now s = (.ok false, s)) ∧
    (lookupA s.orders target = none →
      mergeTables target source user now s = (.ok false, s)) ∧
    (lookupA s.orders source = none →
      mergeTables target source user now s = (.ok false, s)) ∧
    (∀ pr sec, lookupA s.orders target = some pr →
      lookupA s.orders source = some sec →
      ¬(pr.status = "open" ∧ sec.status = "open") →
      mergeTables target source user now s = (.ok false, s)) ∧
    (∀ primary secondary s1 primary1 secondary1,
      ¬(target = "") → ¬(source = "") → ¬(target = source) →
      lookupA s.orders target = some primary → primary.status = "open" →
      lookupA s.orders source = some secondary → secondary.status = "open" →
      closeSessionAndBill source now s = (.ok (), s1) →
      lookupA s1.orders target = some primary1 →
      lookupA s1.orders source = some secondary1 →
      s1.tx_oracle = [] →
      (∀ it ∈ secondary1.items, (it.row_id).isSome = true) →
      ¬(primary.id = secondary1.id) →
      (∀ r ∈ s1.db.order_items, r.order_id = secondary1.id →
        (some r.id) ∈ secondary1.items.map (·.row_id)) →
      0 ≤ primary1.discount_cents → 0 ≤ secondary1.discount_cents →
      ((mergeTables target source user now s).1 = .ok true ∧
       lookupA (mergeTables target source user now s).2.orders source = none ∧
       (∀ r ∈ (mergeTables target source user now s).2.db.orders,
         r.id = secondary1.id →
         r.status = "void" ∧ r.closed_at = some now ∧
           r.closed_by = some user) ∧
       lookupA (mergeTables target source user now s).2.orders target =
         some { primary1 with
             items := primary1.items ++ secondary1.items,
             discount_cents :=
               primary1.discount_cents + secondary1.discount_cents } ∧
       (∀ r ∈ (mergeTables target source user now s).2.db.order_items,
         (some r.id) ∈ secondary1.items.map (·.row_id) →
           r.order_id = primary.id) ∧
       (∀ r ∈ (mergeTables target source user now s).2.db.order_items,
         ¬(r.order_id = secondary1.id)) ∧
       (mergeTables target source user now s).2.ps_sessions =
         s1.ps_sessions)) := by
  refine ⟨?_, ?_, ?_, ?_, ?_⟩
  · intro he
    unfold mergeTables
    rw [htn, hsn, if_pos (by right; right; exact he)]
  · intro hno
    unfold mergeTables
    rw [htn, hsn]
    by_cases hg : target = "" ∨ source = "" ∨ target = source
    · rw [if_pos hg]
    · rw [if_neg hg, hno]
  · intro hno
    unfold mergeTables
    rw [htn, hsn]
    by_cases hg : target = "" ∨ source = "" ∨ target = source
    · rw [if_pos hg]
    · rw [if_neg hg, hno]
      rcases lookupA s.orders target with _ | pr <;> rfl
  · intro pr sec hpr hsec hnopen
    unfold mergeTables
    rw [htn, hsn]
    by_cases hg : target = "" ∨ source = "" ∨ target = source
    · rw [if_pos hg]
    · rw [if_neg hg, hpr, hsec]
      simp only [if_neg hnopen]
  · intro primary secondary s1 primary1 secondary1 ht0 hs0 hne hpr hpo hsec
      hsos hbill hpr1 hsec1 ho1 hrow hids hcorr hd1 hd2
    have hrun : mergeTables target source user now s =
        mergeTablesTx target source user now primary.id secondary1 s1 := by
      unfold mergeTables
      rw [htn, hsn, if_neg (by push_neg; exact ⟨ht0, hs0, hne⟩)]
      rw [hpr, hsec]
      simp only
      rw [if_pos ⟨hpo, hsos⟩, hbill]
      simp only
      rw [hsec1]
    obtain ⟨m1, m2, m3, m4⟩ := mergeTablesTx_success target source user now
      primary.id secondary1 s1 ho1
    rw [hrun]
    have hrep := foldl_reparentOne_rowids primary.id secondary1.items
      s1.db [] hrow
    refine ⟨m1, ?_, ?_, ?_, ?_, ?_, ?_⟩
    · rw [m3]
      exact lookupA_eraseA_self _ source
    · intro r hr hrid
      rw [m2] at hr
      unfold voidOrderRow at hr
      simp only [List.mem_map] at hr
      obtain ⟨r0, _, hr0⟩ := hr
      by_cases h0 : r0.id = secondary1.id
      · rw [if_pos h0] at hr0
        rw [← hr0]
        exact ⟨rfl, rfl, rfl⟩
      · rw [if_neg h0] at hr0
        rw [← hr0] at hrid
        exact absurd hrid h0
    · rw [m3]
      rw [lookupA_eraseA_ne _ source target hne,
        lookupA_modifyA_ne _ source target _ hne,
        lookupA_modifyA_self,
        lookupA_modifyA_ne _ source target _ hne,
        hpr1]
      rw [hrep]
      simp only [Option.map_some', List.nil_append]
      rw [max_eq_right (add_nonneg hd1 hd2)]
    · intro r hr hmem
      rw [m2] at hr
      unfold voidOrderRow at hr
      simp only at hr
      rw [hrep] at hr
      simp only [List.mem_map] at hr
      obtain ⟨r0, hr0mem, hr0⟩ := hr
      have hidpres : r.id = r0.id := by
        rw [← hr0]
        split <;> rfl
      have hx : ∃ a ∈ secondary1.items, a.row_id = some r0.id := by
        rw [← hidpres]
        simpa [List.mem_map] using hmem
      rw [← hr0, if_pos hx]
    · intro r hr
      rw [m2] at hr
      unfold voidOrderRow at hr
      simp only at hr
      rw [hrep] at hr
      simp only [List.mem_map] at hr
      obtain ⟨r0, hr0mem, hr0⟩ := hr
      by_cases hc : ∃ a ∈ secondary1.items, a.row_id = some r0.id
      · rw [if_pos hc] at hr0
        rw [← hr0]
        intro hcc
        exact hids hcc
      · rw [if_neg hc] at hr0
        rw [← hr0]
        intro hcc
        exact hc (by simpa [List.mem_map] using hcorr r0 hr0mem hcc)
    · rw [m4]

/-- **C10 witness**: `T05` has only a P2 session (30 s accumulated, rate
6000 cents/hour); settling at `now = 100` bills 2 minutes (200 cents) into a
lazily created order, pays it, and returns `True`. -/
theorem settle_with_session_no_order_witness :
    lookupA c5State.orders "T05" = none ∧
    lookupA c5State.ps_sessions "T05" = some ⟨"P2", 0, 30⟩ ∧
    c5State.tx_oracle = [] ∧
    ((settle "T05" "card" "kate" 100 c5State).1 = .ok true ∧
     (settle "T05" "card" "kate" 100 c5State).2.db.orders =
       c5State.db.orders ++
         [⟨c5State.db.next_order_id, "T05", 100, "paid", "cashier", some 100,
           some "kate"⟩] ∧
     (settle "T05" "card" "kate" 100 c5State).2.db.payments =
       c5State.db.payments ++
         [⟨c5State.db.next_payment_id, c5State.db.next_order_id, "card",
           psBillAmount (psRateHourCents c5State.db "P2")
             (max 1 ((30 + (100 - 0)) / 60)),
           100, "kate"⟩] ∧
     ((settle "T05" "card" "kate" 100 c5State).2.db.order_items.filter
         (fun r => decide (r.order_id = c5State.db.next_order_id))) =
       [⟨c5State.db.next_item_id, c5State.db.next_order_id,
         psLineDetail "P2" (max 1 ((30 + (100 - 0)) / 60)),
         psBillAmount (psRateHourCents c5State.db "P2")
           (max 1 ((30 + (100 - 0)) / 60)),
         1, ""⟩] ∧
     lookupA (settle "T05" "card" "kate" 100 c5State).2.orders "T05" = none ∧
     lookupA (settle "T05" "card" "kate" 100 c5State).2.ps_sessions "T05" =
       none) :=
  ⟨rfl, by with_unfolding_all rfl, rfl,
   settle_with_session_no_order c5State "T05" "card" "kate" 100 ⟨"P2", 0, 30⟩
     rfl (by with_unfolding_all rfl) (by with_unfolding_all rfl) rfl
     (by simp [c5State, c8DB]) (by simp [c5State, c8DB])⟩

/-- **C6 witness**: merging `T02` (2 items + active P4 session) into `T01`
bills the session first (one 50-cent line on `T02`), then re-parents all
three `T02` rows to order 0, voids order 1, extends `T01`'s in-memory order
and removes `T02` from the map. -/
theorem mergeTables_spec_witness :
    lookupA c6State.orders "T01" = some c6Primary ∧
    lookupA c6State.orders "T02" = some c6Secondary ∧
    closeSessionAndBill "T02" 60 c6State = (.ok (), c6S1) ∧
    lookupA c6S1.orders "T01" = some c6Primary ∧
    lookupA c6S1.orders "T02" = some c6Secondary1 ∧
    ((mergeTables "T01" "T02" "boss" 60 c6State).1 = .ok true ∧
     lookupA (mergeTables "T01" "T02" "boss" 60 c6State).2.orders "T02" =
       none ∧
     (∀ r ∈ (mergeTables "T01" "T02" "boss" 60 c6State).2.db.orders,
       r.id = c6Secondary1.id →
       r.status = "void" ∧ r.closed_at = some 60 ∧
         r.closed_by = some "boss") ∧
     lookupA (mergeTables "T01" "T02" "boss" 60 c6State).2.orders "T01" =
       some { c6Primary with
           items := c6Primary.items ++ c6Secondary1.items,
           discount_cents :=
             c6Primary.discount_cents + c6Secondary1.discount_cents } ∧
     (∀ r ∈ (mergeTables "T01" "T02" "boss" 60 c6State).2.db.order_items,
       (some r.id) ∈ c6Secondary1.items.map (·.row_id) →
         r.order_id = c6Primary.id) ∧
     (∀ r ∈ (mergeTables "T01" "T02" "boss" 60 c6State).2.db.order_items,
       ¬(r.order_id = c6Secondary1.id)) ∧
     (mergeTables "T01" "T02" "boss" 60 c6State).2.ps_sessions =
       c6S1.ps_sessions) :=
  ⟨by with_unfolding_all rfl, by with_unfolding_all rfl,
   by with_unfolding_all rfl, by with_unfolding_all rfl,
   by with_unfolding_all rfl,
   (mergeTables_spec c6State "T01" "T02" "boss" 60
       (by with_unfolding_all rfl) (by with_unfolding_all rfl)).2.2.2.2
     c6Primary c6Secondary c6S1 c6Primary c6Secondary1
     (of_decide_eq_true (by with_unfolding_all rfl))
     (of_decide_eq_true (by with_unfolding_all rfl))
     (of_decide_eq_true (by with_unfolding_all rfl))
     (by with_unfolding_all rfl) (by with_unfolding_all rfl)
     (by with_unfolding_all rfl) (by with_unfolding_all rfl)
     (by with_unfolding_all rfl) (by with_unfolding_all rfl)
     (by with_unfolding_all rfl) rfl
     (of_decide_eq_true (by with_unfolding_all rfl))
     (of_decide_eq_true (by with_unfolding_all rfl))
     (of_decide_eq_true (by with_unfolding_all rfl))
     (of_decide_eq_true (by with_unfolding_all rfl))
     (of_decide_eq_true (by with_unfolding_all rfl))⟩

/-! ## C4: at most one open order per table -/

/-- A successful `lookupA` exhibits a member of the list. -/
lemma lookupA_mem {α : Type} (m : List (String × α)) (k : String) (v : α)
    (h : lookupA m k = some v) : (k, v) ∈ m := by
  induction m with
  | nil => simp [lookupA] at h
  | cons p t ih =>
      rw [lookupA_cons] at h
      by_cases hp : p.1 = k
      · rw [if_pos hp] at h
        have : p = (k, v) := by
          obtain ⟨p1, p2⟩ := p
          simp only at hp h
          rw [hp, Option.some.inj h]
        rw [← this]
        exact List.mem_cons_self p t
      · rw [if_neg hp] at h
        exact List.mem_cons_of_mem _ (ih h)

/-- Appending a pair with a different key does not change a lookup. -/
lemma lookupA_append_ne {α : Type} (m : List (String × α)) (k k2 : String)
    (v : α) (h : ¬(k2 = k)) :
    lookupA (m ++ [(k, v)]) k2 = lookupA m k2 := by
  induction m with
  | nil =>
      have hk : ¬(k = k2) := fun hc => h hc.symm
      simp [lookupA, List.find?, hk]
  | cons p t ih =>
      rw [List.cons_append, lookupA_cons, lookupA_cons, ih]

/-- Filter length over an appended singleton. -/
lemma filter_append_singleton {α : Type} (l : List α) (x : α)
    (p : α → Bool) :
    (List.filter p (l ++ [x])).length =
      (List.filter p l).length + (if p x then 1 else 0) := by
  rw [List.filter_append]
  by_cases h : p x <;> simp [List.filter, h]

/-- A status-flipping map (which never turns a row `open` and keeps table
codes) cannot increase an open count. -/
lemma countOpen_map_le (l : List DBOrder) (f : DBOrder → DBOrder)
    (t : String)
    (hf : ∀ o, (f o).status = "open" ∧ (f o).table_code = t →
      o.status = "open" ∧ o.table_code = t) :
    countOpenRows (l.map f) t ≤ countOpenRows l t := by
  unfold countOpenRows
  induction l with
  | nil => exact le_refl 0
  | cons o rest ih =>
      rw [List.map_cons]
      by_cases hfo : (f o).status = "open" ∧ (f o).table_code = t
      · have ho := hf o hfo
        simp only [List.filter, decide_eq_true hfo, decide_eq_true ho,
          List.length_cons]
        omega
      · by_cases ho : o.status = "open" ∧ o.table_code = t
        · simp only [List.filter, decide_eq_false hfo, decide_eq_true ho,
            List.length_cons]
          omega
        · simp only [List.filter, decide_eq_false hfo, decide_eq_false ho]
          exact ih

/-- If no open row carries code `t`, the open count for `t` is zero. -/
lemma countOpenRows_eq_zero (rows : List DBOrder) (t : String)
    (h : ∀ o ∈ rows, ¬(o.status = "open" ∧ o.table_code = t)) :
    countOpenRows rows t = 0 := by
  unfold countOpenRows
  rw [List.length_eq_zero, List.filter_eq_nil_iff]
  intro o ho
  simpa using h o ho

/-- Under the invariant, a table with no in-memory entry has no open row. -/
lemma no_open_of_lookup_none (rows : List DBOrder)
    (mem : List (String × Order)) (t : String) (h : Inv4Core rows mem)
    (hn : lookupA mem t = none) :
    ∀ o ∈ rows, ¬(o.status = "open" ∧ o.table_code = t) := by
  intro o ho hc
  have h2 := h.2.1 o ho hc.1
  rw [hc.2, hn] at h2
  simp at h2

/-- Invariant transfer when the orders table is unchanged and the map keeps
the same per-key id and status and stays all-open. -/
lemma inv4_same_rows (rows : List DBOrder) (mem mem2 : List (String × Order))
    (hmem : ∀ k, (lookupA mem2 k).map (fun o => (o.id, o.status)) =
      (lookupA mem k).map (fun o => (o.id, o.status)))
    (hall : ∀ p ∈ mem2, p.2.status = "open")
    (h : Inv4Core rows mem) : Inv4Core rows mem2 := by
  refine ⟨h.1, ?_, hall⟩
  intro o ho hop
  have h2 := h.2.1 o ho hop
  have hk := hmem o.table_code
  rcases hl : lookupA mem o.table_code with _ | mo
  · rw [hl] at h2
    simp at h2
  · rw [hl] at h2 hk
    rcases hl2 : lookupA mem2 o.table_code with _ | mo2
    · rw [hl2] at hk
      simp at hk
    · rw [hl2] at hk
      simp only [Option.map_some', Option.some.injEq, Prod.mk.injEq] at hk
      simp only [Option.map_some', Option.some.injEq] at h2 ⊢
      rw [hk.1, h2]

/-- In-place item edits preserve per-key ids and statuses. -/
lemma memOK_modifyA (m : List (String × Order)) (k : String)
    (f : Order → Order) (hf : ∀ o, (f o).id = o.id ∧ (f o).status = o.status) :
    ∀ k2, (lookupA (modifyA m k f) k2).map (fun o => (o.id, o.status)) =
      (lookupA m k2).map (fun o => (o.id, o.status)) := by
  intro k2
  by_cases hk : k2 = k
  · rw [hk, lookupA_modifyA_self]
    rcases lookupA m k with _ | mo
    · rfl
    · simp [Option.map_some', (hf mo).1, (hf mo).2]
  · rw [lookupA_modifyA_ne _ _ _ _ hk]

/-- In-place item edits keep every entry `open` when all were. -/
lemma allOpen_modifyA (m : List (String × Order)) (k : String)
    (f : Order → Order) (hf : ∀ o, (f o).status = o.status)
    (hall : ∀ p ∈ m, p.2.status = "open") :
    ∀ p ∈ modifyA m k f, p.2.status = "open" := by
  intro p hp
  unfold modifyA at hp
  rw [List.mem_map] at hp
  obtain ⟨q, hq, hpq⟩ := hp
  by_cases h : q.1 = k
  · rw [if_pos h] at hpq
    rw [← hpq]
    simpa [hf q.2] using hall q hq
  · rw [if_neg h] at hpq
    rw [← hpq]
    exact hall q hq

/-- Erasing keeps every entry `open` when all were. -/
lemma allOpen_eraseA (m : List (String × Order)) (k : String)
    (hall : ∀ p ∈ m, p.2.status = "open") :
    ∀ p ∈ eraseA m k, p.2.status = "open" := by
  intro p hp
  unfold eraseA at hp
  exact hall p (List.mem_of_mem_filter hp)

/-- Invariant preservation for an in-place edit of one in-memory entry
(`order.items.append`, quantity/note updates, row-id patches): the orders
table untouched, the map modified by an id- and status-preserving function. -/
lemma inv4_modify_entry (rows : List DBOrder) (mem : List (String × Order))
    (k : String) (f : Order → Order)
    (hf : ∀ o, (f o).id = o.id ∧ (f o).status = o.status)
    (h : Inv4Core rows mem) : Inv4Core rows (modifyA mem k f) :=
  inv4_same_rows rows mem _ (memOK_modifyA mem k f hf)
    (allOpen_modifyA mem k f (fun o => (hf o).2) h.2.2) h

/-- Invariant preservation for the lazy order creation of
`_ensure_db_order_tx` followed by the in-memory item append: both when the
transaction commits (row appended) and when it rolls back (row gone,
in-memory entry left behind). -/
lemma inv4_create (rows : List DBOrder) (mem : List (String × Order))
    (t : String) (row : DBOrder) (oNew : Order) (f : Order → Order)
    (h : Inv4Core rows mem) (hl : lookupA mem t = none)
    (hrc : row.table_code = t) (hri : row.id = oNew.id)
    (hrs : row.status = "open") (hos : oNew.status = "open")
    (hf : ∀ o, (f o).id = o.id ∧ (f o).status = o.status) :
    Inv4Core (rows ++ [row]) (mem ++ [(t, f oNew)]) ∧
    Inv4Core rows (mem ++ [(t, f oNew)]) := by
  have hnone := no_open_of_lookup_none rows mem t h hl
  have hz : countOpenRows rows t = 0 := countOpenRows_eq_zero rows t hnone
  have hcnt : ∀ c, countOpenRows (rows ++ [row]) c =
      countOpenRows rows c + (if c = t then 1 else 0) := by
    intro c
    unfold countOpenRows
    rw [filter_append_singleton]
    by_cases hc : c = t
    · rw [if_pos hc, if_pos (by rw [hc]; exact decide_eq_true ⟨hrs, hrc⟩)]
    · rw [if_neg hc, if_neg]
      simp only [decide_eq_true_eq]
      intro hcc
      rw [hrc] at hcc
      exact hc hcc.2.symm
  have hlookup : ∀ c, ¬(c = t) →
      lookupA (mem ++ [(t, f oNew)]) c = lookupA mem c :=
    fun c hc => lookupA_append_ne mem t c _ hc
  have hlt : lookupA (mem ++ [(t, f oNew)]) t = some (f oNew) :=
    lookupA_append_self mem t _ hl
  have hopen2 : ∀ p ∈ mem ++ [(t, f oNew)], p.2.status = "open" := by
    intro p hp
    rw [List.mem_append] at hp
    rcases hp with hp | hp
    · exact h.2.2 p hp
    · rw [List.mem_singleton] at hp
      rw [hp]
      simpa [(hf oNew).2] using hos
  have hmemside : ∀ o ∈ rows, o.status = "open" →
      (lookupA (mem ++ [(t, f oNew)]) o.table_code).map (fun mo => mo.id) =
        some o.id := by
    intro o ho hop
    have hct : ¬(o.table_code = t) := by
      intro hc
      exact hnone o ho ⟨hop, hc⟩
    rw [hlookup o.table_code hct]
    exact h.2.1 o ho hop
  constructor
  · refine ⟨?_, ?_, hopen2⟩
    · intro o ho hop
      rw [List.mem_append] at ho
      rcases ho with ho | ho
      · have hct : ¬(o.table_code = t) := fun hc => hnone o ho ⟨hop, hc⟩
        rw [hcnt, if_neg hct]
        simpa using h.1 o ho hop
      · rw [List.mem_singleton] at ho
        rw [ho, hrc, hcnt, if_pos rfl, hz]
    · intro o ho hop
      rw [List.mem_append] at ho
      rcases ho with ho | ho
      · exact hmemside o ho hop
      · rw [List.mem_singleton] at ho
        rw [ho, hrc, hlt]
        simp [(hf oNew).1, hri]
  · exact ⟨h.1, hmemside, hopen2⟩

/-- Invariant preservation for closing a table (settle or the source side
of a merge): exactly the rows with the in-memory entry's id are flipped to
a non-open status, and the map loses the key (possibly after id- and
status-preserving edits elsewhere). -/
lemma inv4_close_table (rows : List DBOrder) (mem : List (String × Order))
    (tcode : String) (mo : Order) (f : DBOrder → DBOrder)
    (h : Inv4Core rows mem)
    (hmo : lookupA mem tcode = some mo)
    (hflip : ∀ r, ¬(r.id = mo.id) → f r = r)
    (hnotopen : ∀ r, r.id = mo.id → ¬((f r).status = "open"))
    (mem2 : List (String × Order))
    (hm2 : ∀ k, ¬(k = tcode) →
      (lookupA mem2 k).map (fun o => (o.id, o.status)) =
        (lookupA mem k).map (fun o => (o.id, o.status)))
    (hall2 : ∀ p ∈ mem2, p.2.status = "open") :
    Inv4Core (rows.map f) mem2 := by
  have hback : ∀ o, (f o).status = "open" → f o = o ∧ ¬(o.id = mo.id) := by
    intro o hop
    by_cases hid : o.id = mo.id
    · exact absurd hop (hnotopen o hid)
    · exact ⟨hflip o hid, hid⟩
  refine ⟨?_, ?_, hall2⟩
  · intro o2 ho2 hop
    rw [List.mem_map] at ho2
    obtain ⟨o, ho, rfl⟩ := ho2
    obtain ⟨heq, hid⟩ := hback o hop
    rw [heq] at hop ⊢
    calc countOpenRows (rows.map f) o.table_code
        ≤ countOpenRows rows o.table_code := by
          refine countOpen_map_le rows f o.table_code ?_
          intro r hr
          obtain ⟨heq2, _⟩ := hback r hr.1
          rw [← heq2]
          exact hr
      _ ≤ 1 := h.1 o ho hop
  · intro o2 ho2 hop
    rw [List.mem_map] at ho2
    obtain ⟨o, ho, rfl⟩ := ho2
    obtain ⟨heq, hid⟩ := hback o hop
    rw [heq] at hop ⊢
    have h2 := h.2.1 o ho hop
    have hct : ¬(o.table_code = tcode) := by
      intro hc
      rw [hc, hmo] at h2
      simp only [Option.map_some', Option.some.injEq] at h2
      exact hid h2.symm
    have := hm2 o.table_code hct
    rcases hl2 : lookupA mem2 o.table_code with _ | x
    · rw [hl2] at this
      rcases hl : lookupA mem o.table_code with _ | y
      · rw [hl] at h2
        simp at h2
      · rw [hl] at this
        simp at this
    · rw [hl2] at this
      rcases hl : lookupA mem o.table_code with _ | y
      · rw [hl] at h2
        simp at h2
      · rw [hl] at this h2
        simp only [Option.map_some', Option.some.injEq, Prod.mk.injEq] at this
        simp only [Option.map_some', Option.some.injEq] at h2 ⊢
        rw [this.1, h2]

/-! ### Projection lemmas for the transaction tails -/

/-- A commit never touches the in-memory order map. -/
lemma commitTx_orders (snap : DB) (s : EngState) :
    (commitTx snap s).2.orders = s.orders := by
  unfold commitTx
  rcases s.tx_oracle with _ | ⟨b, rest⟩
  · rfl
  · cases b <;> rfl

/-- The store after a commit: kept on success, the snapshot on failure. -/
lemma commitTx_db (snap : DB) (s : EngState) :
    (commitTx snap s).2.db =
      (if (commitTx snap s).1 then s.db else snap) := by
  unfold commitTx
  rcases s.tx_oracle with _ | ⟨b, rest⟩
  · rfl
  · cases b <;> rfl

lemma emitE_db (s : EngState) (e : Event) : (emitE s e).db = s.db := rfl

lemma emitE_orders (s : EngState) (e : Event) :
    (emitE s e).orders = s.orders := rfl

lemma addItemEmits_db (s : EngState) (table : String)
    (created refresh : Bool) (low : Option (String × ℚ × ℚ × ℚ)) :
    (addItemEmits s table created refresh low).db = s.db := by
  rcases low with _ | ⟨p, b, a, m⟩ <;> cases created <;> cases refresh <;> rfl

lemma addItemEmits_orders (s : EngState) (table : String)
    (created refresh : Bool) (low : Option (String × ℚ × ℚ × ℚ)) :
    (addItemEmits s table created refresh low).orders = s.orders := by
  rcases low with _ | ⟨p, b, a, m⟩ <;> cases created <;> cases refresh <;> rfl

lemma removeItemEmits_db (s : EngState) (table : String) (refresh : Bool)
    (recovery : Option (String × ℚ × ℚ × ℚ)) :
    (removeItemEmits s table refresh recovery).db = s.db := by
  rcases recovery with _ | ⟨p, b, a, m⟩ <;> cases refresh <;> rfl

lemma removeItemEmits_orders (s : EngState) (table : String) (refresh : Bool)
    (recovery : Option (String × ℚ × ℚ × ℚ)) :
    (removeItemEmits s table refresh recovery).orders = s.orders := by
  rcases recovery with _ | ⟨p, b, a, m⟩ <;> cases refresh <;> rfl

lemma updateItemEmits_db (s : EngState) (table : String) (refresh : Bool)
    (low recovery : Option (String × ℚ × ℚ × ℚ)) :
    (updateItemEmits s table refresh low recovery).db = s.db := by
  rcases low with _ | ⟨p, b, a, m⟩ <;> rcases recovery with _ | ⟨p2, b2, a2, m2⟩ <;>
    cases refresh <;> rfl

lemma updateItemEmits_orders (s : EngState) (table : String) (refresh : Bool)
    (low recovery : Option (String × ℚ × ℚ × ℚ)) :
    (updateItemEmits s table refresh low recovery).orders = s.orders := by
  rcases low with _ | ⟨p, b, a, m⟩ <;> rcases recovery with _ | ⟨p2, b2, a2, m2⟩ <;>
    cases refresh <;> rfl

/-- The re-parent fold never touches the `orders` table. -/
lemma foldl_reparentOne_orders (tid : ℕ) (items : List OrderItem)
    (db : DB) (acc : List OrderItem) :
    (items.foldl (reparentOne tid) (db, acc)).1.orders = db.orders := by
  induction items generalizing db acc with
  | nil => rfl
  | cons it rest ih =>
      rw [List.foldl_cons]
      rcases hr : it.row_id with _ | rid <;> simp only [reparentOne, hr] <;>
        exact ih _ _

/-- One snapshot step touches only the PS-session components. -/
lemma snapshotOne_proj (now : ℕ) (s : EngState) (t : String) :
    (snapshotOne now s t).db.orders = s.db.orders ∧
    (snapshotOne now s t).orders = s.orders := by
  unfold snapshotOne
  rcases lookupA s.ps_sessions t with _ | sess
  · exact ⟨rfl, rfl⟩
  · exact ⟨rfl, rfl⟩

/-- The snapshot fold touches only the PS-session components. -/
lemma foldl_snapshotOne_proj (now : ℕ) (keys : List String) (s : EngState) :
    (keys.foldl (snapshotOne now) s).db.orders = s.db.orders ∧
    (keys.foldl (snapshotOne now) s).orders = s.orders := by
  induction keys generalizing s with
  | nil => exact ⟨rfl, rfl⟩
  | cons k rest ih =>
      rw [List.foldl_cons]
      obtain ⟨h1, h2⟩ := snapshotOne_proj now s k
      obtain ⟨g1, g2⟩ := ih (snapshotOne now s k)
      exact ⟨by rw [g1, h1], by rw [g2, h2]⟩

/-- Establish the invariant of a state from projection equations. -/
lemma inv4_of_proj (s' : EngState) (rows : List DBOrder)
    (mem : List (String × Order)) (h1 : s'.db.orders = rows)
    (h2 : s'.orders = mem) (h : Inv4Core rows mem) : Inv4 s' := by
  unfold Inv4
  rw [h1, h2]
  exact h

/-- The untracked `add_item` branch preserves the invariant: it either
edits the table's entry in place (id and status kept) or lazily creates the
open order for a table that had none. -/
lemma inv4_addItemPlain (table product : String) (price : ℤ) (qty : ℚ)
    (now : ℕ) (cashier note : String) (s : EngState) (h : Inv4 s) :
    Inv4 (addItemPlain table product price qty now cashier note s).2 := by
  unfold addItemPlain ensureDbOrderTx
  rcases hl : lookupA s.orders table with _ | o
  · unfold ensureDbOrderTx.ensureNewOrder
    simp only []
    obtain ⟨hcreate1, hcreate2⟩ := inv4_create s.db.orders s.orders table
      ⟨s.db.next_order_id, table, now, "open", cashier, none, none⟩
      ⟨s.db.next_order_id, table, [], "open", 0, cashier⟩
      (fun oo => { oo with items :=
        oo.items ++ [⟨product, price, qty, note, some s.db.next_item_id⟩] })
      h hl rfl rfl rfl rfl (fun oo => ⟨rfl, rfl⟩)
    split
    · next hc =>
        refine inv4_of_proj _ _ _ ?_ ?_ hcreate1
        · simp only [addItemEmits_db, commitTx_db, if_pos hc]
          rfl
        · simp only [addItemEmits_orders, commitTx_orders, appendMemItem,
            insertItemRow]
          rw [insertA_fresh _ _ _ hl, modifyA_append_fresh _ _ _ _ hl]
    · next hc =>
        refine inv4_of_proj _ _ _ ?_ ?_ hcreate2
        · simp only [commitTx_db, if_neg hc]
        · simp only [commitTx_orders, appendMemItem, insertItemRow]
          rw [insertA_fresh _ _ _ hl, modifyA_append_fresh _ _ _ _ hl]
  · have ho : o.status = "open" := h.2.2 (table, o) (lookupA_mem s.orders table o hl)
    simp only [ho, if_pos]
    have hcore : Inv4Core s.db.orders (modifyA s.orders table
        (fun oo => { oo with items :=
          oo.items ++ [⟨product, price, qty, note, some s.db.next_item_id⟩] })) :=
      inv4_modify_entry _ _ _ _ (fun oo => ⟨rfl, rfl⟩) h
    split
    · next hc =>
        refine inv4_of_proj _ _ _ ?_ ?_ hcore
        · simp only [addItemEmits_db, commitTx_db, if_pos hc]
          rfl
        · simp only [addItemEmits_orders, commitTx_orders, appendMemItem,
            insertItemRow]
    · next hc =>
        refine inv4_of_proj _ _ _ ?_ ?_ hcore
        · simp only [commitTx_db, if_neg hc]
        · simp only [commitTx_orders, appendMemItem, insertItemRow]

/-- The tracked `add_item` branch preserves the invariant (the stock
decrement and row insert never touch the orders table). -/
lemma inv4_addItemTracked (table product : String) (price : ℤ) (qty : ℚ)
    (now : ℕ) (cashier note : String) (stock : ℚ) (s : EngState)
    (h : Inv4 s) :
    Inv4 (addItemTracked table product price qty now cashier note stock s).2 := by
  unfold addItemTracked ensureDbOrderTx
  rcases hl : lookupA s.orders table with _ | o
  · unfold ensureDbOrderTx.ensureNewOrder
    simp only []
    obtain ⟨hcreate1, hcreate2⟩ := inv4_create s.db.orders s.orders table
      ⟨s.db.next_order_id, table, now, "open", cashier, none, none⟩
      ⟨s.db.next_order_id, table, [], "open", 0, cashier⟩
      (fun oo => { oo with items :=
        oo.items ++ [⟨product, price, qty, note, some s.db.next_item_id⟩] })
      h hl rfl rfl rfl rfl (fun oo => ⟨rfl, rfl⟩)
    split
    · next hc =>
        refine inv4_of_proj _ _ _ ?_ ?_ hcreate1
        · simp only [addItemEmits_db, commitTx_db, if_pos hc]
          rfl
        · simp only [addItemEmits_orders, commitTx_orders, appendMemItem,
            insertItemRow]
          rw [insertA_fresh _ _ _ hl, modifyA_append_fresh _ _ _ _ hl]
          rfl
    · next hc =>
        refine inv4_of_proj _ _ _ ?_ ?_ hcreate2
        · simp only [commitTx_db, if_neg hc]
        · simp only [commitTx_orders, appendMemItem, insertItemRow]
          rw [insertA_fresh _ _ _ hl, modifyA_append_fresh _ _ _ _ hl]
          rfl
  · have ho : o.status = "open" := h.2.2 (table, o) (lookupA_mem s.orders table o hl)
    simp only [ho, if_pos]
    have hcore : Inv4Core s.db.orders (modifyA s.orders table
        (fun oo => { oo with items :=
          oo.items ++ [⟨product, price, qty, note, some s.db.next_item_id⟩] })) :=
      inv4_modify_entry _ _ _ _ (fun oo => ⟨rfl, rfl⟩) h
    split
    · next hc =>
        refine inv4_of_proj _ _ _ ?_ ?_ hcore
        · simp only [addItemEmits_db, commitTx_db, if_pos hc]
          rfl
        · simp only [addItemEmits_orders, commitTx_orders, appendMemItem,
            insertItemRow]
          rfl
    · next hc =>
        refine inv4_of_proj _ _ _ ?_ ?_ hcore
        · simp only [commitTx_db, if_neg hc]
        · simp only [commitTx_orders, appendMemItem, insertItemRow]
          rfl

/-- `add_item` preserves the at-most-one-open-order invariant. -/
lemma inv4_addItem (table product : String) (price : ℤ) (qty : ℚ)
    (now : ℕ) (cashier note : String) (s : EngState) (h : Inv4 s) :
    Inv4 (addItem table product price qty now cashier note s).2 := by
  unfold addItem
  split
  · split
    · exact h
    · exact inv4_addItemTracked table product price qty now cashier note _ s h
  · exact inv4_addItemPlain table product price qty now cashier note s h

lemma decStockDB_orders (db : DB) (label : String) (qty : ℚ) :
    (decStockDB db label qty).orders = db.orders := rfl

lemma incStockDB_orders (db : DB) (label : String) (qty : ℚ) :
    (incStockDB db label qty).orders = db.orders := rfl

lemma deleteItemRow_orders (db : DB) (oid : ℕ) (it : OrderItem) :
    (deleteItemRow db oid it).orders = db.orders := by
  unfold deleteItemRow
  rcases it.row_id with _ | rid <;> rfl

lemma updateItemRow_orders (db : DB) (oid : ℕ) (it : OrderItem) (nq : ℚ)
    (nn : String) : (updateItemRow db oid it nq nn).orders = db.orders := by
  unfold updateItemRow
  rcases it.row_id with _ | rid <;> rfl

/-- `remove_item` preserves the invariant: the in-memory pop is an in-place
item-list edit, and neither the stock restore nor the row delete touches the
orders table. -/
lemma inv4_removeItem (table : String) (index : ℕ) (s : EngState)
    (h : Inv4 s) : Inv4 (removeItem table index s).2 := by
  unfold removeItem
  split
  · exact h
  · split
    · simp only []
      have hcore : Inv4Core s.db.orders (modifyA s.orders table
          (fun oo => { oo with items := oo.items.eraseIdx index })) :=
        inv4_modify_entry _ _ _ _ (fun oo => ⟨rfl, rfl⟩) h
      split
      · split
        · next hc =>
            refine inv4_of_proj _ _ _ ?_ ?_ hcore
            · simp only [removeItemEmits_db, commitTx_db, if_pos hc,
                deleteItemRow_orders, incStockDB_orders]
            · simp only [removeItemEmits_orders, commitTx_orders]
        · next hc =>
            refine inv4_of_proj _ _ _ ?_ ?_ hcore
            · simp only [commitTx_db, if_neg hc]
            · simp only [commitTx_orders]
      · split
        · next hc =>
            refine inv4_of_proj _ _ _ ?_ ?_ hcore
            · simp only [removeItemEmits_db, commitTx_db, if_pos hc,
                deleteItemRow_orders]
            · simp only [removeItemEmits_orders, commitTx_orders]
        · next hc =>
            refine inv4_of_proj _ _ _ ?_ ?_ hcore
            · simp only [commitTx_db, if_neg hc]
            · simp only [commitTx_orders]
    · exact h

/-- The transactional part of `update_item` preserves the invariant. -/
lemma inv4_updateItemTx (table : String) (item : OrderItem) (oid index : ℕ)
    (new_qty : ℚ) (new_note : String) (s : EngState) (h : Inv4 s) :
    Inv4 (updateItemTx table item oid index new_qty new_note s).2 := by
  have hcore : Inv4Core s.db.orders (modifyA s.orders table
      (fun oo => { oo with items := (oo.items.set index
          { item with qty := new_qty, note := new_note }) })) :=
    inv4_modify_entry _ _ _ _ (fun oo => ⟨rfl, rfl⟩) h
  unfold updateItemTx
  simp only []
  split
  · split
    · exact h
    · split
      · next hc =>
          refine inv4_of_proj _ _ _ ?_ ?_ hcore
          · simp only [updateItemEmits_db, commitTx_db, if_pos hc,
              updateItemRow_orders, decStockDB_orders]
          · simp only [updateItemEmits_orders, commitTx_orders]
      · next hc =>
          refine inv4_of_proj _ _ _ ?_ ?_ hcore
          · simp only [commitTx_db, if_neg hc]
          · simp only [commitTx_orders]
  · split
    · split
      · next hc =>
          refine inv4_of_proj _ _ _ ?_ ?_ hcore
          · simp only [updateItemEmits_db, commitTx_db, if_pos hc,
              updateItemRow_orders, incStockDB_orders]
          · simp only [updateItemEmits_orders, commitTx_orders]
      · next hc =>
          refine inv4_of_proj _ _ _ ?_ ?_ hcore
          · simp only [commitTx_db, if_neg hc]
          · simp only [commitTx_orders]
    · split
      · next hc =>
          refine inv4_of_proj _ _ _ ?_ ?_ hcore
          · simp only [updateItemEmits_db, commitTx_db, if_pos hc,
              updateItemRow_orders]
          · simp only [updateItemEmits_orders, commitTx_orders]
      · next hc =>
          refine inv4_of_proj _ _ _ ?_ ?_ hcore
          · simp only [commitTx_db, if_neg hc]
          · simp only [commitTx_orders]

/-- `update_item` preserves the invariant in all of its dispatch branches. -/
lemma inv4_updateItem (table : String) (index : ℕ) (qty? : Option ℚ)
    (note? : Option String) (s : EngState) (h : Inv4 s) :
    Inv4 (updateItem table index qty? note? s).2 := by
  unfold updateItem
  split
  · exact h
  · split
    · simp only []
      split
      · exact inv4_removeItem table index s h
      · split
        · exact h
        · exact inv4_updateItemTx _ _ _ _ _ _ s h
    · exact h

/-- The `finally:` block of `_close_session_and_bill` touches only the
PS-session components, so it preserves the invariant. -/
lemma inv4_closeSessionFinally (table : String) (bodyRes : Except Err Unit)
    (s : EngState) (h : Inv4 s) :
    Inv4 (closeSessionFinally table bodyRes s).2 := by
  unfold closeSessionFinally
  simp only []
  split
  · next hc =>
      refine inv4_of_proj _ s.db.orders s.orders ?_ ?_ h
      · simp only [emitE_db, commitTx_db, if_pos hc]
      · simp only [emitE_orders, commitTx_orders]
  · next hc =>
      refine inv4_of_proj _ s.db.orders s.orders ?_ ?_ h
      · simp only [commitTx_db, if_neg hc]
      · simp only [commitTx_orders]

/-- `_close_session_and_bill` preserves the invariant (an ordinary
`add_item` line followed by the session drop). -/
lemma inv4_closeSessionAndBill (table : String) (now : ℕ) (s : EngState)
    (h : Inv4 s) : Inv4 (closeSessionAndBill table now s).2 := by
  unfold closeSessionAndBill
  split
  · exact h
  · exact inv4_closeSessionFinally _ _ _
      (inv4_addItem _ _ _ _ _ _ _ s h)

/-- `ps_start` preserves the invariant: billing via `add_item`, then a
session upsert that never touches orders. -/
lemma inv4_psStart (table mode : String) (now : ℕ) (s : EngState)
    (h : Inv4 s) : Inv4 (psStart table mode now s).2 := by
  have hr := inv4_closeSessionAndBill table now s h
  unfold psStart
  simp only []
  split
  · exact hr
  · split
    · next hc =>
        refine inv4_of_proj _ (closeSessionAndBill table now s).2.db.orders
          (closeSessionAndBill table now s).2.orders ?_ ?_ hr
        · simp only [emitE_db, commitTx_db, if_pos hc]
          rfl
        · simp only [emitE_orders, commitTx_orders]
    · next hc =>
        refine inv4_of_proj _ (closeSessionAndBill table now s).2.db.orders
          (closeSessionAndBill table now s).2.orders ?_ ?_ hr
        · simp only [commitTx_db, if_neg hc]
        · simp only [commitTx_orders]

/-- `ps_switch` preserves the invariant. -/
lemma inv4_psSwitch (table mode : String) (now : ℕ) (s : EngState)
    (h : Inv4 s) : Inv4 (psSwitch table mode now s).2 :=
  inv4_psStart table mode now s h

/-- `ps_stop` preserves the invariant. -/
lemma inv4_psStop (table : String) (now : ℕ) (s : EngState)
    (h : Inv4 s) : Inv4 (psStop table now s).2 :=
  inv4_closeSessionAndBill table now s h

/-- `snapshot_ps_sessions` preserves the invariant. -/
lemma inv4_snapshot (now : ℕ) (s : EngState) (h : Inv4 s) :
    Inv4 (snapshotPsSessions now s).2 := by
  unfold snapshotPsSessions
  split
  · exact h
  · simp only []
    split
    · next hc =>
        refine inv4_of_proj _ s.db.orders s.orders ?_ ?_ h
        · simp only [commitTx_db, if_pos hc]
          exact (foldl_snapshotOne_proj now _ s).1
        · simp only [commitTx_orders]
          exact (foldl_snapshotOne_proj now _ s).2
    · next hc =>
        refine inv4_of_proj _ s.db.orders s.orders ?_ ?_ h
        · simp only [commitTx_db, if_neg hc]
        · simp only [commitTx_orders]
          exact (foldl_snapshotOne_proj now _ s).2

/-- The transactional part of `settle` preserves the invariant: on success
exactly the settled order's rows leave the `open` state and the table's
in-memory entry is dropped; on failure nothing relevant changes. -/
lemma inv4_settleCore (table method cashier : String) (now : ℕ)
    (s : EngState) (h : Inv4 s) :
    Inv4 (settleCore table method cashier now s).2 := by
  unfold settleCore
  split
  · exact h
  · next x o hmo =>
      simp only []
      split
      · next hc =>
          have hflip : ∀ r : DBOrder, ¬(r.id = o.id) →
              (if r.id = o.id then
                ({ r with status := "paid", closed_at := some now, closed_by := some cashier } : DBOrder)
               else r) = r :=
            fun r hr => if_neg hr
          have hnotopen : ∀ r : DBOrder, r.id = o.id →
              ¬((if r.id = o.id then
                ({ r with status := "paid", closed_at := some now, closed_by := some cashier } : DBOrder)
               else r).status = "open") := by
            intro r hrid
            rw [if_pos hrid]
            simp
          refine inv4_of_proj _ (s.db.orders.map (fun r =>
              if r.id = o.id then
                ({ r with status := "paid", closed_at := some now, closed_by := some cashier } : DBOrder)
              else r))
            (eraseA s.orders table) ?_ ?_
            (inv4_close_table s.db.orders s.orders table o _ h hmo hflip
              hnotopen (eraseA s.orders table)
              (fun k hk => by rw [lookupA_eraseA_ne _ _ _ hk])
              (allOpen_eraseA _ _ h.2.2))
          · simp only [emitE_db, commitTx_db, if_pos hc]
            rfl
          · simp only [emitE_orders, commitTx_orders]
            rw [eraseA_modifyA]
      · next hc =>
          refine inv4_of_proj _ s.db.orders s.orders ?_ ?_ h
          · simp only [commitTx_db, if_neg hc]
          · simp only [commitTx_orders]

/-- `settle` preserves the invariant. -/
lemma inv4_settle (table method cashier : String) (now : ℕ) (s : EngState)
    (h : Inv4 s) : Inv4 (settle table method cashier now s).2 := by
  have hr := inv4_closeSessionAndBill table now s h
  unfold settle
  simp only []
  split
  · exact hr
  · exact inv4_settleCore table method cashier now _ hr

/-- The merge transaction preserves the invariant: on success exactly the
source order's rows are voided and the source key leaves the map; on
failure only the source entry's in-memory item list was patched. -/
lemma inv4_mergeTablesTx (target source user : String) (now : ℕ)
    (pid : ℕ) (sec1 : Order) (s : EngState) (h : Inv4 s)
    (hl : lookupA s.orders source = some sec1) :
    Inv4 (mergeTablesTx target source user now pid sec1 s).2 := by
  unfold mergeTablesTx
  simp only []
  split
  · next hc =>
      have hflip : ∀ r : DBOrder, ¬(r.id = sec1.id) →
          (if r.id = sec1.id then
            ({ r with status := "void", closed_at := some now, closed_by := some user } : DBOrder)
           else r) = r :=
        fun r hr => if_neg hr
      have hnotopen : ∀ r : DBOrder, r.id = sec1.id →
          ¬((if r.id = sec1.id then
            ({ r with status := "void", closed_at := some now, closed_by := some user } : DBOrder)
           else r).status = "open") := by
        intro r hrid
        rw [if_pos hrid]
        simp
      have hm2 : ∀ k, ¬(k = source) →
          (lookupA (eraseA (modifyA (modifyA s.orders source (fun oo =>
              ({ oo with items := (sec1.items.foldl (reparentOne pid) (s.db, [])).2 } : Order))) target (fun oo =>
              ({ oo with items := oo.items ++ (sec1.items.foldl (reparentOne pid) (s.db, [])).2, discount_cents := max 0 (oo.discount_cents + sec1.discount_cents) } : Order))) source) k).map
            (fun o => (o.id, o.status)) =
          (lookupA s.orders k).map (fun o => (o.id, o.status)) := by
        intro k hk
        rw [lookupA_eraseA_ne _ _ _ hk,
          memOK_modifyA _ target (fun oo =>
            ({ oo with items := oo.items ++ (sec1.items.foldl (reparentOne pid) (s.db, [])).2, discount_cents := max 0 (oo.discount_cents + sec1.discount_cents) } : Order))
            (fun oo => ⟨rfl, rfl⟩) k,
          memOK_modifyA _ source (fun oo =>
            ({ oo with items := (sec1.items.foldl (reparentOne pid) (s.db, [])).2 } : Order))
            (fun oo => ⟨rfl, rfl⟩) k]
      have hall2 : ∀ p ∈ eraseA (modifyA (modifyA s.orders source (fun oo =>
            ({ oo with items := (sec1.items.foldl (reparentOne pid) (s.db, [])).2 } : Order))) target (fun oo =>
            ({ oo with items := oo.items ++ (sec1.items.foldl (reparentOne pid) (s.db, [])).2, discount_cents := max 0 (oo.discount_cents + sec1.discount_cents) } : Order))) source,
          p.2.status = "open" :=
        allOpen_eraseA _ _ (allOpen_modifyA _ _ _ (fun oo => rfl)
          (allOpen_modifyA _ _ _ (fun oo => rfl) h.2.2))
      refine inv4_of_proj _ (s.db.orders.map (fun r =>
          if r.id = sec1.id then
            ({ r with status := "void", closed_at := some now, closed_by := some user } : DBOrder)
          else r))
        (eraseA (modifyA (modifyA s.orders source (fun oo =>
            ({ oo with items := (sec1.items.foldl (reparentOne pid) (s.db, [])).2 } : Order))) target (fun oo =>
            ({ oo with items := oo.items ++ (sec1.items.foldl (reparentOne pid) (s.db, [])).2, discount_cents := max 0 (oo.discount_cents + sec1.discount_cents) } : Order))) source)
        ?_ ?_
        (inv4_close_table s.db.orders s.orders source sec1 _ h hl hflip
          hnotopen _ hm2 hall2)
      · simp only [emitE_db, commitTx_db, if_pos hc]
        simp only [voidOrderRow, foldl_reparentOne_orders]
      · simp only [emitE_orders, commitTx_orders]
        rw [eraseA_modifyA]
  · next hc =>
      refine inv4_of_proj _ s.db.orders (modifyA s.orders source (fun oo =>
          ({ oo with items := (sec1.items.foldl (reparentOne pid) (s.db, [])).2 } : Order))) ?_ ?_
        (inv4_modify_entry _ _ _ _ (fun oo => ⟨rfl, rfl⟩) h)
      · simp only [commitTx_db, if_neg hc]
      · simp only [commitTx_orders]

/-- `merge_tables` preserves the invariant in every branch. -/
lemma inv4_mergeTables (target_table source_table user : String) (now : ℕ)
    (s : EngState) (h : Inv4 s) :
    Inv4 (mergeTables target_table source_table user now s).2 := by
  unfold mergeTables
  simp only []
  split
  · exact h
  · split
    · split
      · have hr := inv4_closeSessionAndBill (source_table.trim.toUpper) now s h
        split
        · exact hr
        · split
          · exact hr
          · next x sec1 hsec =>
              exact inv4_mergeTablesTx _ _ _ _ _ _ _ hr hsec
      · exact h
    · exact h

/-- Every engine operation preserves the invariant. -/
lemma inv4_runOp (s : EngState) (op : Op) (h : Inv4 s) : Inv4 (runOp s op) := by
  cases op with
  | addItem t p price qty now c n => exact inv4_addItem t p price qty now c n s h
  | removeItem t i => exact inv4_removeItem t i s h
  | updateItem t i q? n? => exact inv4_updateItem t i q? n? s h
  | mergeTables tg src u now => exact inv4_mergeTables tg src u now s h
  | settle t m c now => exact inv4_settle t m c now s h
  | psStart t m now => exact inv4_psStart t m now s h
  | psSwitch t m now => exact inv4_psSwitch t m now s h
  | psStop t now => exact inv4_psStop t now s h
  | snapshot now => exact inv4_snapshot now s h

/-- Any operation sequence preserves the invariant. -/
lemma inv4_runTrace (s : EngState) (ops : List Op) (h : Inv4 s) :
    Inv4 (runTrace s ops) := by
  induction ops generalizing s with
  | nil => exact h
  | cons op rest ih => exact ih (runOp s op) (inv4_runOp s op h)

/-- Under the invariant, every table code — with or without an open row —
has at most one open order. -/
lemma countOpenRows_le_one (rows : List DBOrder)
    (mem : List (String × Order)) (h : Inv4Core rows mem) (t : String) :
    countOpenRows rows t ≤ 1 := by
  rcases hf : rows.filter
      (fun o => decide (o.status = "open" ∧ o.table_code = t)) with _ | ⟨o, rest⟩
  · unfold countOpenRows
    rw [hf]
    exact Nat.zero_le 1
  · have hom : o ∈ rows.filter
        (fun o => decide (o.status = "open" ∧ o.table_code = t)) := by
      rw [hf]
      exact List.mem_cons_self o rest
    have ho := List.mem_of_mem_filter hom
    have hp := List.of_mem_filter hom
    rw [decide_eq_true_eq] at hp
    have h1 := h.1 o ho hp.1
    rw [hp.2] at h1
    exact h1

/-- **C4.**  At most one `open` Order per table code: starting from any
state satisfying the one-open-order-per-table invariant `Inv4` (in
particular any fresh engine), after any sequence of engine operations
(`add_item`, `remove_item`, `update_item`, `merge_tables`, `settle`, the
PS-session operations and the periodic snapshot) the number of Orders in
state `open` for any table code is at most 1 — `add_item` creates a new
open order only when the table has no open entry, `settle` and
`merge_tables` flip the order's rows out of `open` exactly when they drop
the table's in-memory entry. -/
theorem at_most_one_open_order_per_table (s : EngState) (h : Inv4 s)
    (ops : List Op) (t : String) :
    countOpen (runTrace s ops).db t ≤ 1 :=
  countOpenRows_le_one _ _ (inv4_runTrace s ops h) t

/-- **C4 witness**: a fresh engine satisfies the invariant, and after two
`add_item` calls and a `settle` on `T01` the table has at most one open
order. -/
theorem at_most_one_open_order_per_table_witness :
    Inv4 (⟨emptyDB, [], [], [], []⟩ : EngState) ∧
    countOpen (runTrace (⟨emptyDB, [], [], [], []⟩ : EngState)
      [.addItem "T01" "Tea" 300 1 5 "w" "",
       .addItem "T01" "Cake" 500 1 6 "w" "",
       .settle "T01" "cash" "w" 7]).db "T01" ≤ 1 :=
  have hinv : Inv4 (⟨emptyDB, [], [], [], []⟩ : EngState) :=
    ⟨fun o ho => absurd ho (List.not_mem_nil o),
     fun o ho => absurd ho (List.not_mem_nil o),
     fun p hp => absurd hp (List.not_mem_nil p)⟩
  ⟨hinv, at_most_one_open_order_per_table (⟨emptyDB, [], [], [], []⟩ : EngState)
    hinv
    [.addItem "T01" "Tea" 300 1 5 "w" "",
     .addItem "T01" "Cake" 500 1 6 "w" "",
     .settle "T01" "cash" "w" 7] "T01"⟩

/-! ## C2: stock bounds -/

/-- `find?` by name commutes with a name-preserving map. -/
lemma find?_map_name (g : Product → Product)
    (hg : ∀ p, (g p).name = p.name) (ps : List Product) (name : String) :
    (ps.map g).find? (fun p => decide (p.name = name)) =
      (ps.find? (fun p => decide (p.name = name))).map g := by
  induction ps with
  | nil => rfl
  | cons p t ih =>
      rw [List.map_cons]
      by_cases hp : p.name = name
      · rw [List.find?_cons_of_pos _ (by simp [hg p, hp]),
          List.find?_cons_of_pos _ (by simp [hp]), Option.map_some']
      · rw [List.find?_cons_of_neg _ (by simp [hg p, hp]),
          List.find?_cons_of_neg _ (by simp [hp]), ih]

/-- The product record after a stock decrement. -/
lemma getProduct_decStockDB (db : DB) (l : String) (q : ℚ) (name : String) :
    getProduct (decStockDB db l q) name = (getProduct db name).map (fun p =>
      if p.name = l ∧ p.track_stock = 1 then
        ({ p with stock_qty := some (max 0 (p.stock_qty.getD 0 - q)) } : Product)
      else p) := by
  unfold getProduct decStockDB
  exact find?_map_name _
    (fun p => by by_cases h : p.name = l ∧ p.track_stock = 1 <;> simp [h])
    db.products name

/-- The product record after a stock increment. -/
lemma getProduct_incStockDB (db : DB) (l : String) (q : ℚ) (name : String) :
    getProduct (incStockDB db l q) name = (getProduct db name).map (fun p =>
      if p.name = l ∧ p.track_stock = 1 then
        ({ p with stock_qty := some (p.stock_qty.getD 0 + q) } : Product)
      else p) := by
  unfold getProduct incStockDB
  exact find?_map_name _
    (fun p => by by_cases h : p.name = l ∧ p.track_stock = 1 <;> simp [h])
    db.products name

lemma restockSum_decStockDB (db : DB) (l : String) (q : ℚ) (name : String) :
    restockSum (decStockDB db l q) name = restockSum db name := rfl

lemma restockSum_incStockDB (db : DB) (l : String) (q : ℚ) (name : String) :
    restockSum (incStockDB db l q) name =
      restockSum db name + (if l = name then q else 0) := by
  unfold restockSum incStockDB
  by_cases h : l = name <;>
    simp [List.filter_append, h]

/-- A found product is a member of the table. -/
lemma getProduct_mem (db : DB) (name : String) (p : Product)
    (h : getProduct db name = some p) : p ∈ db.products ∧ p.name = name := by
  unfold getProduct at h
  refine ⟨List.mem_of_find?_eq_some h, ?_⟩
  have := List.find?_some h
  simpa using this

/-- A stock decrement never raises a stock value above its old value. -/
lemma stockOf_decStockDB_le (db : DB) (l : String) (q : ℚ) (name : String)
    (h0 : StockOK db) (hq : 0 ≤ q) :
    stockOf (decStockDB db l q) name ≤ stockOf db name := by
  unfold stockOf
  rw [getProduct_decStockDB]
  rcases hf : getProduct db name with _ | p
  · simp
  · obtain ⟨hp, -⟩ := getProduct_mem db name p hf
    have h0p := h0 p hp
    by_cases hc : p.name = l ∧ p.track_stock = 1
    · simp only [Option.map_some', if_pos hc]
      simpa using max_le h0p (sub_le_self _ hq)
    · simp only [Option.map_some', if_neg hc]
      exact le_refl _

/-- A stock decrement keeps all stocks nonnegative. -/
lemma StockOK_decStockDB (db : DB) (l : String) (q : ℚ) (h0 : StockOK db) :
    StockOK (decStockDB db l q) := by
  intro p hp
  unfold decStockDB at hp
  simp only [List.mem_map] at hp
  obtain ⟨p0, hp0, rfl⟩ := hp
  by_cases hc : p0.name = l ∧ p0.track_stock = 1
  · rw [if_pos hc]
    simp
  · rw [if_neg hc]
    exact h0 p0 hp0

/-- A nonnegative stock increment keeps all stocks nonnegative. -/
lemma StockOK_incStockDB (db : DB) (l : String) (q : ℚ) (h0 : StockOK db)
    (hq : 0 ≤ q) : StockOK (incStockDB db l q) := by
  intro p hp
  unfold incStockDB at hp
  simp only [List.mem_map] at hp
  obtain ⟨p0, hp0, rfl⟩ := hp
  by_cases hc : p0.name = l ∧ p0.track_stock = 1
  · rw [if_pos hc]
    simpa using add_nonneg (h0 p0 hp0) hq
  · rw [if_neg hc]
    exact h0 p0 hp0

/-- A stock decrement only lowers the bound difference. -/
lemma bound_decStockDB (db : DB) (l : String) (q : ℚ) (h0 : StockOK db)
    (hq : 0 ≤ q) : C2Bound db (decStockDB db l q) := by
  intro name
  rw [restockSum_decStockDB]
  have := stockOf_decStockDB_le db l q name h0 hq
  linarith

/-- A logged nonnegative restock keeps the bound difference. -/
lemma bound_incStockDB (db : DB) (l : String) (q : ℚ) (hq : 0 ≤ q) :
    C2Bound db (incStockDB db l q) := by
  intro name
  rw [restockSum_incStockDB]
  unfold stockOf
  rw [getProduct_incStockDB]
  by_cases hn : l = name
  · rw [if_pos hn]
    rcases hf : getProduct db name with _ | p
    · simp only [Option.map_none']
      linarith
    · by_cases hc : p.name = l ∧ p.track_stock = 1
      · simp only [Option.map_some', if_pos hc]
        simp only [Option.some_bind]
        rcases p.stock_qty with _ | v <;> simp
      · simp only [Option.map_some', if_neg hc]
        linarith
  · rw [if_neg hn]
    rcases hf : getProduct db name with _ | p
    · simp only [Option.map_none']
      linarith
    · obtain ⟨-, hpn⟩ := getProduct_mem db name p hf
      have hc : ¬(p.name = l ∧ p.track_stock = 1) := by
        intro hcc
        rw [hpn] at hcc
        exact hn hcc.1.symm
      simp only [Option.map_some', if_neg hc]
      linarith

lemma C2Bound_refl (db : DB) : C2Bound db db := fun _ => le_refl _

lemma C2Bound_trans (db0 db1 db2 : DB) (h1 : C2Bound db0 db1)
    (h2 : C2Bound db1 db2) : C2Bound db0 db2 :=
  fun name => le_trans (h2 name) (h1 name)

lemma stockOf_congr (db db' : DB) (hp : db'.products = db.products)
    (name : String) : stockOf db' name = stockOf db name := by
  unfold stockOf getProduct
  rw [hp]

lemma restockSum_congr (db db' : DB) (hl : db'.restock_log = db.restock_log)
    (name : String) : restockSum db' name = restockSum db name := by
  unfold restockSum
  rw [hl]

lemma StockOK_congr (db db' : DB) (hp : db'.products = db.products)
    (h : StockOK db) : StockOK db' := by
  unfold StockOK
  rw [hp]
  exact h

/-- Establish the stock facts of a state from projection equations. -/
lemma c2_pack (s' : EngState) (db0 dbm : DB) (mem : List (String × Order))
    (hp : s'.db.products = dbm.products)
    (hl : s'.db.restock_log = dbm.restock_log) (hm : s'.orders = mem)
    (hS : StockOK dbm) (hB : C2Bound db0 dbm)
    (hG : ∀ e ∈ mem, ∀ it ∈ e.2.items, 0 ≤ it.qty) :
    StockOK s'.db ∧ C2Bound db0 s'.db ∧ GoodMem s' := by
  refine ⟨StockOK_congr dbm s'.db hp hS, ?_, ?_⟩
  · intro name
    rw [stockOf_congr _ _ hp, restockSum_congr _ _ hl]
    exact hB name
  · intro e he
    rw [hm] at he
    exact hG e he

/-- Item-quantity nonnegativity through an in-place entry edit. -/
lemma good_modifyA (m : List (String × Order)) (k : String)
    (f : Order → Order)
    (hf : ∀ o, (∀ it ∈ o.items, 0 ≤ it.qty) → ∀ it ∈ (f o).items, 0 ≤ it.qty)
    (hg : ∀ e ∈ m, ∀ it ∈ e.2.items, 0 ≤ it.qty) :
    ∀ e ∈ modifyA m k f, ∀ it ∈ e.2.items, 0 ≤ it.qty := by
  intro e he
  unfold modifyA at he
  rw [List.mem_map] at he
  obtain ⟨q, hq, rfl⟩ := he
  by_cases h : q.1 = k
  · rw [if_pos h]
    exact hf q.2 (hg q hq)
  · rw [if_neg h]
    exact hg q hq

/-- Item-quantity nonnegativity through an appended entry. -/
lemma good_append (m : List (String × Order)) (t : String) (o : Order)
    (hg : ∀ e ∈ m, ∀ it ∈ e.2.items, 0 ≤ it.qty)
    (ho : ∀ it ∈ o.items, 0 ≤ it.qty) :
    ∀ e ∈ m ++ [(t, o)], ∀ it ∈ e.2.items, 0 ≤ it.qty := by
  intro e he
  rw [List.mem_append] at he
  rcases he with he | he
  · exact hg e he
  · rw [List.mem_singleton] at he
    rw [he]
    exact ho

lemma deleteItemRow_products (db : DB) (oid : ℕ) (it : OrderItem) :
    (deleteItemRow db oid it).products = db.products := by
  unfold deleteItemRow
  rcases it.row_id with _ | rid <;> rfl

lemma deleteItemRow_restock (db : DB) (oid : ℕ) (it : OrderItem) :
    (deleteItemRow db oid it).restock_log = db.restock_log := by
  unfold deleteItemRow
  rcases it.row_id with _ | rid <;> rfl

lemma updateItemRow_products (db : DB) (oid : ℕ) (it : OrderItem) (nq : ℚ)
    (nn : String) : (updateItemRow db oid it nq nn).products = db.products := by
  unfold updateItemRow
  rcases it.row_id with _ | rid <;> rfl

lemma updateItemRow_restock (db : DB) (oid : ℕ) (it : OrderItem) (nq : ℚ)
    (nn : String) :
    (updateItemRow db oid it nq nn).restock_log = db.restock_log := by
  unfold updateItemRow
  rcases it.row_id with _ | rid <;> rfl

/-- Item-quantity nonnegativity through a dict insert. -/
lemma good_insertA (m : List (String × Order)) (k : String) (v : Order)
    (hg : ∀ e ∈ m, ∀ it ∈ e.2.items, 0 ≤ it.qty)
    (hv : ∀ it ∈ v.items, 0 ≤ it.qty) :
    ∀ e ∈ insertA m k v, ∀ it ∈ e.2.items, 0 ≤ it.qty := by
  intro e he
  unfold insertA at he
  split at he
  · rw [List.mem_map] at he
    obtain ⟨q, hq, rfl⟩ := he
    by_cases h : q.1 = k
    · rw [if_pos h]
      exact hv
    · rw [if_neg h]
      exact hg q hq
  · rw [List.mem_append] at he
    rcases he with he | he
    · exact hg e he
    · rw [List.mem_singleton] at he
      rw [he]
      exact hv

/-- Stock facts through the untracked `add_item` branch (no stock motion). -/
lemma c2_addItemPlain (table product : String) (price : ℤ) (qty : ℚ)
    (now : ℕ) (cashier note : String) (s : EngState)
    (h0 : StockOK s.db) (hg : GoodMem s) (hq : 0 ≤ qty) :
    StockOK (addItemPlain table product price qty now cashier note s).2.db ∧
    C2Bound s.db (addItemPlain table product price qty now cashier note s).2.db ∧
    GoodMem (addItemPlain table product price qty now cashier note s).2 := by
  have hfgood : ∀ o : Order, (∀ it ∈ o.items, 0 ≤ it.qty) →
      ∀ it ∈ (o.items ++ [(⟨product, price, qty, note, some s.db.next_item_id⟩ : OrderItem)]), 0 ≤ it.qty := by
    intro o ho it hit
    rcases List.mem_append.mp hit with h | h
    · exact ho it h
    · rw [List.mem_singleton] at h
      rw [h]
      exact hq
  have hGnew : ∀ e ∈ modifyA (insertA s.orders table
      (⟨s.db.next_order_id, table, [], "open", 0, cashier⟩ : Order)) table
      (fun oo => ({ oo with items := oo.items ++ [⟨product, price, qty, note, some s.db.next_item_id⟩] } : Order)),
      ∀ it ∈ e.2.items, 0 ≤ it.qty :=
    good_modifyA _ _ _ hfgood (good_insertA _ _ _ hg
      (fun it hit => absurd hit (List.not_mem_nil it)))
  have hGreuse : ∀ e ∈ modifyA s.orders table
      (fun oo => ({ oo with items := oo.items ++ [⟨product, price, qty, note, some s.db.next_item_id⟩] } : Order)),
      ∀ it ∈ e.2.items, 0 ≤ it.qty :=
    good_modifyA _ _ _ hfgood hg
  unfold addItemPlain ensureDbOrderTx
  rcases hl : lookupA s.orders table with _ | o
  · unfold ensureDbOrderTx.ensureNewOrder
    simp only []
    split
    · next hc =>
        refine c2_pack _ s.db s.db
          (modifyA (insertA s.orders table
            (⟨s.db.next_order_id, table, [], "open", 0, cashier⟩ : Order)) table
            (fun oo => ({ oo with items := oo.items ++ [⟨product, price, qty, note, some s.db.next_item_id⟩] } : Order)))
          ?_ ?_ ?_ h0 (C2Bound_refl s.db) hGnew
        · simp only [addItemEmits_db, commitTx_db, if_pos hc]
          simp only [appendMemItem, insertItemRow]
        · simp only [addItemEmits_db, commitTx_db, if_pos hc]
          simp only [appendMemItem, insertItemRow]
        · simp only [addItemEmits_orders, commitTx_orders, appendMemItem,
            insertItemRow]
    · next hc =>
        refine c2_pack _ s.db s.db
          (modifyA (insertA s.orders table
            (⟨s.db.next_order_id, table, [], "open", 0, cashier⟩ : Order)) table
            (fun oo => ({ oo with items := oo.items ++ [⟨product, price, qty, note, some s.db.next_item_id⟩] } : Order)))
          ?_ ?_ ?_ h0 (C2Bound_refl s.db) hGnew
        · simp only [commitTx_db, if_neg hc]
        · simp only [commitTx_db, if_neg hc]
        · simp only [commitTx_orders, appendMemItem, insertItemRow]
  · by_cases hst : o.status = "open"
    · simp only [hst, if_pos]
      split
      · next hc =>
          refine c2_pack _ s.db s.db
            (modifyA s.orders table
            (fun oo => ({ oo with items := oo.items ++ [⟨product, price, qty, note, some s.db.next_item_id⟩] } : Order)))
            ?_ ?_ ?_ h0 (C2Bound_refl s.db) hGreuse
          · simp only [addItemEmits_db, commitTx_db, if_pos hc]
            simp only [appendMemItem, insertItemRow]
          · simp only [addItemEmits_db, commitTx_db, if_pos hc]
            simp only [appendMemItem, insertItemRow]
          · simp only [addItemEmits_orders, commitTx_orders, appendMemItem,
              insertItemRow]
      · next hc =>
          refine c2_pack _ s.db s.db
            (modifyA s.orders table
            (fun oo => ({ oo with items := oo.items ++ [⟨product, price, qty, note, some s.db.next_item_id⟩] } : Order)))
            ?_ ?_ ?_ h0 (C2Bound_refl s.db) hGreuse
          · simp only [commitTx_db, if_neg hc]
          · simp only [commitTx_db, if_neg hc]
          · simp only [commitTx_orders, appendMemItem, insertItemRow]
    · simp only [if_neg hst]
      unfold ensureDbOrderTx.ensureNewOrder
      simp only []
      split
      · next hc =>
          refine c2_pack _ s.db s.db
            (modifyA (insertA s.orders table
            (⟨s.db.next_order_id, table, [], "open", 0, cashier⟩ : Order)) table
            (fun oo => ({ oo with items := oo.items ++ [⟨product, price, qty, note, some s.db.next_item_id⟩] } : Order)))
            ?_ ?_ ?_ h0 (C2Bound_refl s.db) hGnew
          · simp only [addItemEmits_db, commitTx_db, if_pos hc]
            simp only [appendMemItem, insertItemRow]
          · simp only [addItemEmits_db, commitTx_db, if_pos hc]
            simp only [appendMemItem, insertItemRow]
          · simp only [addItemEmits_orders, commitTx_orders, appendMemItem,
              insertItemRow]
      · next hc =>
          refine c2_pack _ s.db s.db
            (modifyA (insertA s.orders table
            (⟨s.db.next_order_id, table, [], "open", 0, cashier⟩ : Order)) table
            (fun oo => ({ oo with items := oo.items ++ [⟨product, price, qty, note, some s.db.next_item_id⟩] } : Order)))
            ?_ ?_ ?_ h0 (C2Bound_refl s.db) hGnew
          · simp only [commitTx_db, if_neg hc]
          · simp only [commitTx_db, if_neg hc]
          · simp only [commitTx_orders, appendMemItem, insertItemRow]

/-- Stock facts through the tracked `add_item` branch: one clamped
decrement of a nonnegative quantity inside the transaction. -/
lemma c2_addItemTracked (table product : String) (price : ℤ) (qty : ℚ)
    (now : ℕ) (cashier note : String) (stock : ℚ) (s : EngState)
    (h0 : StockOK s.db) (hg : GoodMem s) (hq : 0 ≤ qty) :
    StockOK (addItemTracked table product price qty now cashier note stock s).2.db ∧
    C2Bound s.db (addItemTracked table product price qty now cashier note stock s).2.db ∧
    GoodMem (addItemTracked table product price qty now cashier note stock s).2 := by
  have hfgood : ∀ o : Order, (∀ it ∈ o.items, 0 ≤ it.qty) →
      ∀ it ∈ (o.items ++ [(⟨product, price, qty, note, some s.db.next_item_id⟩ : OrderItem)]), 0 ≤ it.qty := by
    intro o ho it hit
    rcases List.mem_append.mp hit with h | h
    · exact ho it h
    · rw [List.mem_singleton] at h
      rw [h]
      exact hq
  have hGnew : ∀ e ∈ modifyA (insertA s.orders table
      (⟨s.db.next_order_id, table, [], "open", 0, cashier⟩ : Order)) table
      (fun oo => ({ oo with items := oo.items ++ [⟨product, price, qty, note, some s.db.next_item_id⟩] } : Order)),
      ∀ it ∈ e.2.items, 0 ≤ it.qty :=
    good_modifyA _ _ _ hfgood (good_insertA _ _ _ hg
      (fun it hit => absurd hit (List.not_mem_nil it)))
  have hGreuse : ∀ e ∈ modifyA s.orders table
      (fun oo => ({ oo with items := oo.items ++ [⟨product, price, qty, note, some s.db.next_item_id⟩] } : Order)),
      ∀ it ∈ e.2.items, 0 ≤ it.qty :=
    good_modifyA _ _ _ hfgood hg
  have hSd := StockOK_decStockDB s.db product qty h0
  have hBd := bound_decStockDB s.db product qty h0 hq
  unfold addItemTracked ensureDbOrderTx
  rcases hl : lookupA s.orders table with _ | o
  · unfold ensureDbOrderTx.ensureNewOrder
    simp only []
    split
    · next hc =>
        refine c2_pack _ s.db (decStockDB s.db product qty)
          (modifyA (insertA s.orders table
            (⟨s.db.next_order_id, table, [], "open", 0, cashier⟩ : Order)) table
            (fun oo => ({ oo with items := oo.items ++ [⟨product, price, qty, note, some s.db.next_item_id⟩] } : Order)))
          ?_ ?_ ?_ hSd hBd hGnew
        · simp only [addItemEmits_db, commitTx_db, if_pos hc]
          simp only [appendMemItem, insertItemRow, decStockDB]
        · simp only [addItemEmits_db, commitTx_db, if_pos hc]
          simp only [appendMemItem, insertItemRow, decStockDB]
        · simp only [addItemEmits_orders, commitTx_orders, appendMemItem,
            insertItemRow]
          rfl
    · next hc =>
        refine c2_pack _ s.db s.db
          (modifyA (insertA s.orders table
            (⟨s.db.next_order_id, table, [], "open", 0, cashier⟩ : Order)) table
            (fun oo => ({ oo with items := oo.items ++ [⟨product, price, qty, note, some s.db.next_item_id⟩] } : Order)))
          ?_ ?_ ?_ h0 (C2Bound_refl s.db) hGnew
        · simp only [commitTx_db, if_neg hc]
        · simp only [commitTx_db, if_neg hc]
        · simp only [commitTx_orders, appendMemItem, insertItemRow]
          rfl
  · by_cases hst : o.status = "open"
    · simp only [hst, if_pos]
      split
      · next hc =>
          refine c2_pack _ s.db (decStockDB s.db product qty)
            (modifyA s.orders table
            (fun oo => ({ oo with items := oo.items ++ [⟨product, price, qty, note, some s.db.next_item_id⟩] } : Order)))
            ?_ ?_ ?_ hSd hBd hGreuse
          · simp only [addItemEmits_db, commitTx_db, if_pos hc]
            simp only [appendMemItem, insertItemRow, decStockDB]
          · simp only [addItemEmits_db, commitTx_db, if_pos hc]
            simp only [appendMemItem, insertItemRow, decStockDB]
          · simp only [addItemEmits_orders, commitTx_orders, appendMemItem,
              insertItemRow]
            rfl
      · next hc =>
          refine c2_pack _ s.db s.db
            (modifyA s.orders table
            (fun oo => ({ oo with items := oo.items ++ [⟨product, price, qty, note, some s.db.next_item_id⟩] } : Order)))
            ?_ ?_ ?_ h0 (C2Bound_refl s.db) hGreuse
          · simp only [commitTx_db, if_neg hc]
          · simp only [commitTx_db, if_neg hc]
          · simp only [commitTx_orders, appendMemItem, insertItemRow]
            rfl
    · simp only [if_neg hst]
      unfold ensureDbOrderTx.ensureNewOrder
      simp only []
      split
      · next hc =>
          refine c2_pack _ s.db (decStockDB s.db product qty)
            (modifyA (insertA s.orders table
              (⟨s.db.next_order_id, table, [], "open", 0, cashier⟩ : Order)) table
              (fun oo => ({ oo with items := oo.items ++ [⟨product, price, qty, note, some s.db.next_item_id⟩] } : Order)))
            ?_ ?_ ?_ hSd hBd hGnew
          · simp only [addItemEmits_db, commitTx_db, if_pos hc]
            simp only [appendMemItem, insertItemRow, decStockDB]
          · simp only [addItemEmits_db, commitTx_db, if_pos hc]
            simp only [appendMemItem, insertItemRow, decStockDB]
          · simp only [addItemEmits_orders, commitTx_orders, appendMemItem,
              insertItemRow]
            rfl
      · next hc =>
          refine c2_pack _ s.db s.db
            (modifyA (insertA s.orders table
              (⟨s.db.next_order_id, table, [], "open", 0, cashier⟩ : Order)) table
              (fun oo => ({ oo with items := oo.items ++ [⟨product, price, qty, note, some s.db.next_item_id⟩] } : Order)))
            ?_ ?_ ?_ h0 (C2Bound_refl s.db) hGnew
          · simp only [commitTx_db, if_neg hc]
          · simp only [commitTx_db, if_neg hc]
          · simp only [commitTx_orders, appendMemItem, insertItemRow]
            rfl

/-- Stock facts through `add_item` with a nonnegative quantity. -/
lemma c2_addItem (table product : String) (price : ℤ) (qty : ℚ) (now : ℕ)
    (cashier note : String) (s : EngState)
    (h0 : StockOK s.db) (hg : GoodMem s) (hq : 0 ≤ qty) :
    StockOK (addItem table product price qty now cashier note s).2.db ∧
    C2Bound s.db (addItem table product price qty now cashier note s).2.db ∧
    GoodMem (addItem table product price qty now cashier note s).2 := by
  unfold addItem
  split
  · split
    · exact ⟨h0, C2Bound_refl s.db, hg⟩
    · exact c2_addItemTracked table product price qty now cashier note _ s h0 hg hq
  · exact c2_addItemPlain table product price qty now cashier note s h0 hg hq

/-- Stock facts through `remove_item`: the restock uses the removed item's
own (nonnegative) quantity. -/
lemma c2_removeItem (table : String) (index : ℕ) (s : EngState)
    (h0 : StockOK s.db) (hg : GoodMem s) :
    StockOK (removeItem table index s).2.db ∧
    C2Bound s.db (removeItem table index s).2.db ∧
    GoodMem (removeItem table index s).2 := by
  unfold removeItem
  split
  · exact ⟨h0, C2Bound_refl s.db, hg⟩
  · next x o hl =>
      split
      · next hidx =>
          have hitem : 0 ≤ (o.items.get ⟨index, hidx⟩).qty :=
            hg (table, o) (lookupA_mem s.orders table o hl) _
              (o.items.get_mem index hidx)
          have hGmem : ∀ e ∈ modifyA s.orders table
              (fun oo => ({ oo with items := oo.items.eraseIdx index } : Order)),
              ∀ it ∈ e.2.items, 0 ≤ it.qty :=
            good_modifyA _ _ _
              (fun oo ho it hit => ho it (List.eraseIdx_subset _ _ hit)) hg
          simp only []
          split
          · split
            · next hc =>
                refine c2_pack _ s.db
                  (incStockDB s.db (o.items.get ⟨index, hidx⟩).product
                    (o.items.get ⟨index, hidx⟩).qty)
                  (modifyA s.orders table
                    (fun oo => ({ oo with items := oo.items.eraseIdx index } : Order)))
                  ?_ ?_ ?_
                  (StockOK_incStockDB _ _ _ h0 hitem)
                  (bound_incStockDB _ _ _ hitem) hGmem
                · simp only [removeItemEmits_db, commitTx_db, if_pos hc,
                    deleteItemRow_products]
                · simp only [removeItemEmits_db, commitTx_db, if_pos hc,
                    deleteItemRow_restock]
                · simp only [removeItemEmits_orders, commitTx_orders]
            · next hc =>
                refine c2_pack _ s.db s.db
                  (modifyA s.orders table
                    (fun oo => ({ oo with items := oo.items.eraseIdx index } : Order)))
                  ?_ ?_ ?_ h0 (C2Bound_refl s.db) hGmem
                · simp only [commitTx_db, if_neg hc]
                · simp only [commitTx_db, if_neg hc]
                · simp only [commitTx_orders]
          · split
            · next hc =>
                refine c2_pack _ s.db s.db
                  (modifyA s.orders table
                    (fun oo => ({ oo with items := oo.items.eraseIdx index } : Order)))
                  ?_ ?_ ?_ h0 (C2Bound_refl s.db) hGmem
                · simp only [removeItemEmits_db, commitTx_db, if_pos hc,
                    deleteItemRow_products]
                · simp only [removeItemEmits_db, commitTx_db, if_pos hc,
                    deleteItemRow_restock]
                · simp only [removeItemEmits_orders, commitTx_orders]
            · next hc =>
                refine c2_pack _ s.db s.db
                  (modifyA s.orders table
                    (fun oo => ({ oo with items := oo.items.eraseIdx index } : Order)))
                  ?_ ?_ ?_ h0 (C2Bound_refl s.db) hGmem
                · simp only [commitTx_db, if_neg hc]
                · simp only [commitTx_db, if_neg hc]
                · simp only [commitTx_orders]
      · exact ⟨h0, C2Bound_refl s.db, hg⟩

/-- Stock facts through the transactional part of `update_item` (called
with a positive new quantity): a positive delta is a clamped decrement, a
negative delta restocks its absolute value. -/
lemma c2_updateItemTx (table : String) (item : OrderItem) (oid index : ℕ)
    (new_qty : ℚ) (new_note : String) (s : EngState)
    (h0 : StockOK s.db) (hg : GoodMem s) (hq : 0 ≤ new_qty) :
    StockOK (updateItemTx table item oid index new_qty new_note s).2.db ∧
    C2Bound s.db (updateItemTx table item oid index new_qty new_note s).2.db ∧
    GoodMem (updateItemTx table item oid index new_qty new_note s).2 := by
  have hGmem : ∀ e ∈ modifyA s.orders table
      (fun oo => ({ oo with items := (oo.items.set index
        ({ item with qty := new_qty, note := new_note } : OrderItem)) } : Order)),
      ∀ it ∈ e.2.items, 0 ≤ it.qty := by
    refine good_modifyA _ _ _ ?_ hg
    intro oo ho it hit
    rcases List.mem_or_eq_of_mem_set hit with h | h
    · exact ho it h
    · rw [h]
      exact hq
  unfold updateItemTx
  simp only []
  split
  · next hcond =>
      split
      · exact ⟨h0, C2Bound_refl s.db, hg⟩
      · split
        · next hc =>
            refine c2_pack _ s.db
              (decStockDB s.db item.product (new_qty - item.qty))
              (modifyA s.orders table
                (fun oo => ({ oo with items := (oo.items.set index
                  ({ item with qty := new_qty, note := new_note } : OrderItem)) } : Order)))
              ?_ ?_ ?_
              (StockOK_decStockDB _ _ _ h0)
              (bound_decStockDB _ _ _ h0 (le_of_lt hcond.2)) hGmem
            · simp only [updateItemEmits_db, commitTx_db, if_pos hc,
                updateItemRow_products]
            · simp only [updateItemEmits_db, commitTx_db, if_pos hc,
                updateItemRow_restock]
            · simp only [updateItemEmits_orders, commitTx_orders]
        · next hc =>
            refine c2_pack _ s.db s.db
              (modifyA s.orders table
                (fun oo => ({ oo with items := (oo.items.set index
                  ({ item with qty := new_qty, note := new_note } : OrderItem)) } : Order)))
              ?_ ?_ ?_ h0 (C2Bound_refl s.db) hGmem
            · simp only [commitTx_db, if_neg hc]
            · simp only [commitTx_db, if_neg hc]
            · simp only [commitTx_orders]
  · split
    · next hcond2 =>
        have hd : 0 ≤ -(new_qty - item.qty) := le_of_lt (by linarith [hcond2.2])
        split
        · next hc =>
            refine c2_pack _ s.db
              (incStockDB s.db item.product (-(new_qty - item.qty)))
              (modifyA s.orders table
                (fun oo => ({ oo with items := (oo.items.set index
                  ({ item with qty := new_qty, note := new_note } : OrderItem)) } : Order)))
              ?_ ?_ ?_
              (StockOK_incStockDB _ _ _ h0 hd)
              (bound_incStockDB _ _ _ hd) hGmem
            · simp only [updateItemEmits_db, commitTx_db, if_pos hc,
                updateItemRow_products]
            · simp only [updateItemEmits_db, commitTx_db, if_pos hc,
                updateItemRow_restock]
            · simp only [updateItemEmits_orders, commitTx_orders]
        · next hc =>
            refine c2_pack _ s.db s.db
              (modifyA s.orders table
                (fun oo => ({ oo with items := (oo.items.set index
                  ({ item with qty := new_qty, note := new_note } : OrderItem)) } : Order)))
              ?_ ?_ ?_ h0 (C2Bound_refl s.db) hGmem
            · simp only [commitTx_db, if_neg hc]
            · simp only [commitTx_db, if_neg hc]
            · simp only [commitTx_orders]
    · split
      · next hc =>
          refine c2_pack _ s.db s.db
            (modifyA s.orders table
              (fun oo => ({ oo with items := (oo.items.set index
                ({ item with qty := new_qty, note := new_note } : OrderItem)) } : Order)))
            ?_ ?_ ?_ h0 (C2Bound_refl s.db) hGmem
          · simp only [updateItemEmits_db, commitTx_db, if_pos hc,
              updateItemRow_products]
          · simp only [updateItemEmits_db, commitTx_db, if_pos hc,
              updateItemRow_restock]
          · simp only [updateItemEmits_orders, commitTx_orders]
      · next hc =>
          refine c2_pack _ s.db s.db
            (modifyA s.orders table
              (fun oo => ({ oo with items := (oo.items.set index
                ({ item with qty := new_qty, note := new_note } : OrderItem)) } : Order)))
            ?_ ?_ ?_ h0 (C2Bound_refl s.db) hGmem
          · simp only [commitTx_db, if_neg hc]
          · simp only [commitTx_db, if_neg hc]
          · simp only [commitTx_orders]

/-- Stock facts through `update_item`. -/
lemma c2_updateItem (table : String) (index : ℕ) (qty? : Option ℚ)
    (note? : Option String) (s : EngState)
    (h0 : StockOK s.db) (hg : GoodMem s) :
    StockOK (updateItem table index qty? note? s).2.db ∧
    C2Bound s.db (updateItem table index qty? note? s).2.db ∧
    GoodMem (updateItem table index qty? note? s).2 := by
  unfold updateItem
  split
  · exact ⟨h0, C2Bound_refl s.db, hg⟩
  · split
    · simp only []
      split
      · exact c2_removeItem table index s h0 hg
      · next hq0 =>
          split
          · exact ⟨h0, C2Bound_refl s.db, hg⟩
          · exact c2_updateItemTx _ _ _ _ _ _ s h0 hg (le_of_lt (not_le.mp hq0))
    · exact ⟨h0, C2Bound_refl s.db, hg⟩

/-- Stock facts through one claim-scoped operation. -/
lemma c2_runOp (s : EngState) (op : Op) (hok : C2OpOK op)
    (h0 : StockOK s.db) (hg : GoodMem s) :
    StockOK (runOp s op).db ∧ C2Bound s.db (runOp s op).db ∧
    GoodMem (runOp s op) := by
  cases op with
  | addItem t p price qty now c n => exact c2_addItem t p price qty now c n s h0 hg hok
  | removeItem t i => exact c2_removeItem t i s h0 hg
  | updateItem t i q? n? => exact c2_updateItem t i q? n? s h0 hg
  | mergeTables tg src u now => exact hok.elim
  | settle t m c now => exact hok.elim
  | psStart t m now => exact hok.elim
  | psSwitch t m now => exact hok.elim
  | psStop t now => exact hok.elim
  | snapshot now => exact hok.elim

/-- Stock facts through a claim-scoped operation sequence. -/
lemma c2_runTrace (s : EngState) (ops : List Op)
    (hops : ∀ op ∈ ops, C2OpOK op) (h0 : StockOK s.db) (hg : GoodMem s) :
    StockOK (runTrace s ops).db ∧ C2Bound s.db (runTrace s ops).db ∧
    GoodMem (runTrace s ops) := by
  induction ops generalizing s with
  | nil => exact ⟨h0, C2Bound_refl s.db, hg⟩
  | cons op rest ih =>
      obtain ⟨hS, hB, hG⟩ := c2_runOp s op
        (hops op (List.mem_cons_self op rest)) h0 hg
      obtain ⟨hS2, hB2, hG2⟩ := ih (runOp s op)
        (fun o ho => hops o (List.mem_cons_of_mem op ho)) hS hG
      exact ⟨hS2, C2Bound_trans _ _ _ hB hB2, hG2⟩

/-- **C2 counterexample.**  `add_item` never validates the requested
quantity, and the claim quantifies over *every* sequence of `add_item` /
`remove_item` / `update_item` calls: a single `add_item` with `qty = -1` on
the tracked Espresso (stock 2) succeeds — `stock < qty` is `2 < -1`, false —
and the "clamped" update `stock = max(0, stock - (-1))` *raises* the stock
to 3, exceeding the pre-sequence value 2 plus the restocked sum 0. -/
theorem addItem_negative_qty_breaks_stock_bound :
    stockOf c9S0.db "Espresso" = 2 ∧
    restockSum c9S0.db "Espresso" = 0 ∧
    (addItem "T01" "Espresso" 300 (-1) 0 "w" "" c9S0).1 = .ok () ∧
    stockOf (addItem "T01" "Espresso" 300 (-1) 0 "w" "" c9S0).2.db "Espresso" = 3 ∧
    ¬(stockOf (addItem "T01" "Espresso" 300 (-1) 0 "w" "" c9S0).2.db "Espresso" ≤
      stockOf c9S0.db "Espresso" +
        restockSum (addItem "T01" "Espresso" 300 (-1) 0 "w" "" c9S0).2.db "Espresso") :=
  ⟨by with_unfolding_all rfl, rfl, by with_unfolding_all rfl,
   by with_unfolding_all rfl,
   of_decide_eq_true (by with_unfolding_all rfl)⟩

/-- **C2** (corrected: the bounds need nonnegative quantities, which the
code never validates — see the counterexample).  For every sequence of
`add_item` / `remove_item` / `update_item` operations whose added
quantities are nonnegative, starting from a store with nonnegative stocks,
nonnegative in-memory item quantities and an empty restock log: every
product's stock stays ≥ 0 (`dec_stock` is the single clamped update
`stock = max(0, COALESCE(stock,0) - qty)` restricted to tracked rows), and
never exceeds its pre-sequence value plus the sum of quantities restocked
by removals/reductions. -/
theorem stock_bounds (s : EngState) (ops : List Op)
    (hops : ∀ op ∈ ops, C2OpOK op) (h0 : StockOK s.db) (hg : GoodMem s)
    (hlog : s.db.restock_log = []) (name : String) :
    0 ≤ stockOf (runTrace s ops).db name ∧
    stockOf (runTrace s ops).db name ≤
      stockOf s.db name + restockSum (runTrace s ops).db name := by
  obtain ⟨hS, hB, -⟩ := c2_runTrace s ops hops h0 hg
  have hz : restockSum s.db name = 0 := by
    unfold restockSum
    rw [hlog]
    rfl
  constructor
  · unfold stockOf
    rcases hf : getProduct (runTrace s ops).db name with _ | p
    · simp
    · obtain ⟨hp, -⟩ := getProduct_mem _ _ _ hf
      have hnn := hS p hp
      rcases hsq : p.stock_qty with _ | v
      · simp [hsq]
      · rw [hsq] at hnn
        simpa [hsq] using hnn
  · have hb := hB name
    rw [hz] at hb
    linarith

/-- **C2 witness**: adding one Espresso then removing it keeps the stock in
`[0, 2 + restocked]`. -/
theorem stock_bounds_witness :
    StockOK c9S0.db ∧ GoodMem c9S0 ∧ c9S0.db.restock_log = [] ∧
    (0 ≤ stockOf (runTrace c9S0
        [.addItem "T01" "Espresso" 300 1 5 "w" "", .removeItem "T01" 0]).db "Espresso" ∧
     stockOf (runTrace c9S0
        [.addItem "T01" "Espresso" 300 1 5 "w" "", .removeItem "T01" 0]).db "Espresso" ≤
       stockOf c9S0.db "Espresso" + restockSum (runTrace c9S0
        [.addItem "T01" "Espresso" 300 1 5 "w" "", .removeItem "T01" 0]).db "Espresso") :=
  have hops : ∀ op ∈ ([.addItem "T01" "Espresso" 300 1 5 "w" "",
      .removeItem "T01" 0] : List Op), C2OpOK op := by
    intro op hop
    rcases List.mem_cons.mp hop with h | hop2
    · rw [h]
      show (0 : ℚ) ≤ 1
      norm_num
    · rcases List.mem_cons.mp hop2 with h | h3
      · rw [h]
        trivial
      · exact absurd h3 (List.not_mem_nil op)
  have h0 : StockOK c9S0.db := by
    intro p hp
    have hpe : p = ⟨"Espresso", "Drinks", 300, 1, some 2, some 1⟩ := by
      simpa [c9S0, c9DB] using hp
    rw [hpe]
    norm_num
  have hg : GoodMem c9S0 := fun e he => absurd he (List.not_mem_nil e)
  ⟨h0, hg, rfl, stock_bounds c9S0
    [.addItem "T01" "Espresso" 300 1 5 "w" "", .removeItem "T01" 0]
    hops h0 hg rfl "Espresso"⟩

end Beirut